import Mathlib

/-!
Shallow embedding of the query-understanding and ranking core of the
acum-h repository (Python), together with proofs settling the claims of
its natural-language specification.

Conventions of the embedding:
* Python `str` values are modelled as `List Char` (`PyS`).
* Python `float` scores/confidences are modelled as exact rationals `ℚ`
  (the sources only build them by division of small integers and compare
  them).
* Python dictionaries with a fixed, code-determined key order are
  modelled as association lists in insertion order, because CPython
  `max(d, key=d.get)` iterates keys in insertion order and replaces the
  running best only on a strictly greater value.
* `unicodedata.normalize('NFKD', s)` followed by dropping combining
  characters is modelled character-wise through an explicit table
  (`nfkdStripChar`) covering the character repertoire that the sources
  use (ASCII, the Romanian letters ă â î ș ț ţ in both cases and the
  combining-mark block U+0300–U+036F); characters outside the table are
  kept unchanged.  Compatibility ligatures that decompose into several
  letters are outside the modelled repertoire.
* Fallible calls (HTTP, Redis, `dict[...]` lookups that may raise
  `KeyError`) are modelled with `Except`/`Option` results.
-/

set_option maxRecDepth 10000

/-- Python strings, modelled as lists of characters. -/
abbrev PyS := List Char

/-- Model of Python `str.lower` on the character repertoire used by the
sources: ASCII letters plus the Romanian diacritic letters. -/
def pyLowerChar (c : Char) : Char :=
  if 'A' ≤ c ∧ c ≤ 'Z' then Char.ofNat (c.toNat + 32)
  else if c = 'Ă' then 'ă'
  else if c = 'Â' then 'â'
  else if c = 'Î' then 'î'
  else if c = 'Ș' then 'ș'
  else if c = 'Ț' then 'ț'
  else c

/-- Lowercase a whole string (model of `str.lower`). -/
def pyLower (s : PyS) : PyS := s.map pyLowerChar

/-- Character-wise model of `unicodedata.normalize('NFKD', ·)` followed by
removal of combining characters (`unicodedata.combining(c)` nonzero):
a precomposed letter of the modelled repertoire decomposes into its base
letter followed by a combining mark, and the mark is dropped; a combining
mark (block U+0300–U+036F) is dropped; every other character is kept. -/
def nfkdStripChar (c : Char) : Option Char :=
  if 0x300 ≤ c.toNat ∧ c.toNat ≤ 0x36F then none
  else if c = 'ă' then some 'a'
  else if c = 'â' then some 'a'
  else if c = 'î' then some 'i'
  else if c = 'ș' then some 's'
  else if c = 'ț' then some 't'
  else if c = 'ţ' then some 't'
  else if c = 'Ă' then some 'A'
  else if c = 'Â' then some 'A'
  else if c = 'Î' then some 'I'
  else if c = 'Ș' then some 'S'
  else if c = 'Ț' then some 'T'
  else some c

/-- Model of `AIRecommender.remove_diacritics` (ai_recommender.py):
NFKD-decompose and drop combining characters, preserving case. -/
def remove_diacritics (s : PyS) : PyS := s.filterMap nfkdStripChar

/-- Whitespace characters recognised by Python `str.strip()` / `str.split()`
on the modelled repertoire. -/
def isPySpace (c : Char) : Bool :=
  c = ' ' ∨ c = '\t' ∨ c = '\n' ∨ c = '\x0d' ∨ c = '\x0b' ∨ c = '\x0c'

/-- Model of Python `str.strip()`: drop leading and trailing whitespace. -/
def pyStrip (s : PyS) : PyS :=
  ((s.dropWhile isPySpace).reverse.dropWhile isPySpace).reverse

/-- Helper for `runsBy`: `cur` is the reversed run of `p`-characters
collected so far. -/
def runsByAux (p : Char → Bool) (cur : List Char) : List Char → List (List Char)
  | [] => if cur = [] then [] else [cur.reverse]
  | c :: rest =>
    if p c then runsByAux p (c :: cur) rest
    else if cur = [] then runsByAux p [] rest
    else cur.reverse :: runsByAux p [] rest

/-- Maximal runs of characters satisfying `p` (used for `str.split()` with
`p` = non-whitespace and for `re.findall(r'\w+', ·)` with `p` = word
character). -/
def runsBy (p : Char → Bool) (l : List Char) : List (List Char) :=
  runsByAux p [] l

/-- Model of Python `str.split()` with no arguments: maximal runs of
non-whitespace characters. -/
def pySplitWs (s : PyS) : List PyS := runsBy (fun c => !isPySpace c) s

/-- Model of the substring test `a in b` on Python strings: returns the
suffix of `b` that follows the first (leftmost) occurrence of `a`, if any. -/
def afterFirst (pat : PyS) : PyS → Option PyS
  | [] => if pat = [] then some [] else none
  | c :: rest =>
    if pat.isPrefixOf (c :: rest) then some ((c :: rest).drop pat.length)
    else afterFirst pat rest

/-- Python substring containment `pat in s`. -/
def isSub (pat s : PyS) : Bool := (afterFirst pat s).isSome

example : isSub "salut".toList "salut!".toList = true := by decide
example : isSub "artă".toList "mai arată-mi".toList = false := by decide
example : pyLower "Salut!".toList = "salut!".toList := by decide
example : remove_diacritics "găsește".toList = "gaseste".toList := by decide
example : pySplitWs "  ab  cd ".toList = ["ab".toList, "cd".toList] := by decide
example : pyStrip "  ab cd ".toList = "ab cd".toList := by decide

/-! ## EnhancedAIRecommenderBackendSimple (ai_recommender_backend_simple.py) -/

/-- Model of the `diacritics_map` replacement loop of
`EnhancedAIRecommenderBackendSimple.normalize_text`: each mapped Romanian
diacritic is a single character replaced by a single character, so the
sequence of `str.replace` calls is a character-wise map. -/
def diacriticsMapChar (c : Char) : Char :=
  if c = 'ă' then 'a'
  else if c = 'â' then 'a'
  else if c = 'î' then 'i'
  else if c = 'ș' then 's'
  else if c = 'ț' then 't'
  else if c = 'Ă' then 'A'
  else if c = 'Â' then 'A'
  else if c = 'Î' then 'I'
  else if c = 'Ș' then 'S'
  else if c = 'Ț' then 'T'
  else c

/-- Model of `EnhancedAIRecommenderBackendSimple.normalize_text`: replace the
mapped diacritics, NFKD-decompose and drop combining characters, then
lowercase and strip.  The Python `if not text: return ""` guard is the
identity on the empty list. -/
def normalize_text (s : PyS) : PyS :=
  pyStrip (pyLower (remove_diacritics (s.map diacriticsMapChar)))

example : normalize_text " Găsește-mi Ceva! ".toList = "gaseste-mi ceva!".toList := by decide

/-- Intent pattern table of
`EnhancedAIRecommenderBackendSimple.classify_intent`, in source (insertion)
order; each pattern is tested by substring containment against the
normalized query. -/
def simpleIntentPatterns : List (PyS × List PyS) :=
  [ ("greeting".toList,
      ["salut".toList, "buna".toList, "hello".toList, "hei".toList,
       "ce faci".toList, "buna ziua".toList, "buna seara".toList]),
    ("restaurant_search".toList,
      ["restaurant".toList, "unde sa mananc".toList, "loc de mancare".toList,
       "recomanzi un restaurant".toList, "restaurante".toList, "cafenea".toList,
       "bar".toList, "pub".toList, "braserie".toList, "companie".toList]),
    ("food_search".toList,
      ["mancare".toList, "preparat".toList, "fel".toList, "pizza".toList,
       "pasta".toList, "burger".toList, "salata".toList, "supa".toList,
       "desert".toList, "dulce".toList, "bautura".toList, "ce sa mananc".toList,
       "vreau sa mananc".toList, "meniu".toList]),
    ("event_search".toList,
      ["eveniment".toList, "concert".toList, "spectacol".toList,
       "festival".toList, "petrecere".toList, "ce se intampla".toList,
       "evenimente".toList, "ce fac".toList, "distractie".toList]),
    ("location_search".toList,
      ["aproape".toList, "langa".toList, "distanta".toList, "unde".toList,
       "locatie".toList, "adresa".toList]),
    ("recommendation".toList,
      ["recomanzi".toList, "sugerezi".toList, "propui".toList,
       "ce imi recomanzi".toList, "ce e bun".toList]) ]

/-- Per-intent hit counts of `classify_intent`: the entry for an intent is
present only when its score is positive (`if score > 0`), mirroring the
construction of the Python `intent_scores` dict in insertion order. -/
def simpleIntentScores (q : PyS) : List (PyS × Nat) :=
  simpleIntentPatterns.filterMap fun ip =>
    let s := ip.2.countP fun p => isSub p (normalize_text q)
    if s > 0 then some (ip.1, s) else none

/-- Model of CPython `max(d, key=d.get)` over an association list in
insertion order: the running best is replaced only on a strictly greater
value, so the result is the first key attaining the maximal value. -/
def pyMaxByVal (l : List (PyS × Nat)) : Option (PyS × Nat) :=
  match l with
  | [] => none
  | x :: xs => some (xs.foldl (fun best y => if y.2 > best.2 then y else best) x)

/-- Model of `EnhancedAIRecommenderBackendSimple.classify_intent`. -/
def classify_intent (q : PyS) : PyS :=
  match pyMaxByVal (simpleIntentScores q) with
  | some best => best.1
  | none => "general".toList

example : classify_intent "salut".toList = "greeting".toList := by decide
example : classify_intent "xyzzy".toList = "general".toList := by decide
example : classify_intent "restaurant concert".toList = "restaurant_search".toList := by decide

/-- Catalog record `Restaurant` of ai_recommender_backend_simple.py. -/
structure Restaurant where
  id : Int
  name : PyS
  category : PyS
  address : PyS
  description : PyS
  rating : ℚ
  contact : PyS
  image : PyS
  tags : List PyS
  latitude : ℚ
  longitude : ℚ
  cui : Int
deriving DecidableEq

/-- Catalog record `Event` of ai_recommender_backend_simple.py. -/
structure Event where
  id : Int
  title : PyS
  description : PyS
  photo : PyS
  tags : List PyS
  likes : Int
  company : PyS
  company_id : Int
deriving DecidableEq

/-- Searchable text of a restaurant in `keyword_search`:
`f"{item.name} {item.category} {item.description} {' '.join(item.tags)}"`. -/
def restaurantSearchText (r : Restaurant) : PyS :=
  r.name ++ ' ' :: r.category ++ ' ' :: r.description ++ ' ' ::
    List.intercalate [' '] r.tags

/-- Searchable text of an event in `keyword_search`:
`f"{item.title} {item.description} {' '.join(item.tags)}"`. -/
def eventSearchText (e : Event) : PyS :=
  e.title ++ ' ' :: e.description ++ ' ' :: List.intercalate [' '] e.tags

/-- Stable descending insertion sort by a rational key, modelling CPython
`list.sort(key=..., reverse=True)` (Timsort is stable; with `reverse=True`
equal-key elements keep their original relative order). -/
def insertDescBy {α : Type} (key : α → ℚ) (x : α) : List α → List α
  | [] => [x]
  | y :: ys => if key x ≥ key y then x :: y :: ys else y :: insertDescBy key x ys

/-- Stable sort, descending by `key`. -/
def pySortDescBy {α : Type} (key : α → ℚ) : List α → List α
  | [] => []
  | x :: xs => insertDescBy key x (pySortDescBy key xs)

/-- Result entry `{'item': ..., 'score': ...}` of the keyword path, or
`{'item': ..., 'similarity': ...}` of the semantic path; the merge step only
reads `item.id`, so both are modelled by the item together with its
relevance value. -/
structure KWResult (α : Type) where
  item : α
  score : ℚ
deriving DecidableEq

/-- Tokens of the normalized query used by `keyword_search`:
`set(normalized_query.split())`.  A Python set of tokens is modelled as the
token list with duplicates removed (`List.dedup`); only membership and
cardinality of the set are consulted. -/
def queryWords (q : PyS) : List PyS := (pySplitWs (normalize_text q)).dedup

/-- Intersection of two token sets
(`query_words.intersection(text_words)`), both modelled as deduplicated
lists: the members of the first set that also belong to the second. -/
def tokenInter (qw tw : List PyS) : List PyS := qw.filter fun w => w ∈ tw

/-- Core of `EnhancedAIRecommenderBackendSimple.keyword_search`, generic over
the searchable-text function of the item kind: for each item, the overlap
`query_words ∩ text_words` is computed; when it is non-empty the item is
scored `|overlap| / |query_words|`; results are sorted descending by score
(stably) and truncated to `limit`. -/
def keyword_search_core {α : Type} (text : α → PyS)
    (q : PyS) (items : List α) (limit : Nat) : List (KWResult α) :=
  let qw := queryWords q
  let results := items.filterMap fun item =>
    let tw := (pySplitWs (normalize_text (text item))).dedup
    let matching := tokenInter qw tw
    if matching ≠ [] then
      some ⟨item, (matching.length : ℚ) / (qw.length : ℚ)⟩
    else none
  (pySortDescBy (fun r => r.score) results).take limit

/-- `keyword_search` on the restaurant branch. -/
def keyword_search_restaurants (q : PyS) (items : List Restaurant) (limit : Nat) :
    List (KWResult Restaurant) :=
  keyword_search_core restaurantSearchText q items limit

/-- `keyword_search` on the event branch. -/
def keyword_search_events (q : PyS) (items : List Event) (limit : Nat) :
    List (KWResult Event) :=
  keyword_search_core eventSearchText q items limit

/-- Deduplication loop of `EnhancedAIRecommenderBackendSimple.search_all`
(lines 468–481): iterate over the concatenation of the semantic-path and
keyword-path result lists, keep an entry only when its item id has not been
seen yet. -/
def dedupById {α : Type} (getId : α → Int) : List (KWResult α) → List Int → List (KWResult α)
  | [], _ => []
  | r :: rest, seen =>
    if getId r.item ∈ seen then dedupById getId rest seen
    else r :: dedupById getId rest (getId r.item :: seen)

/-- Merge step of `search_all`: semantic results first, then keyword results,
deduplicated by item id (first occurrence wins), truncated to `max_results`.
No re-sorting is applied after the merge. -/
def merge_results {α : Type} (getId : α → Int)
    (semantic keyword : List (KWResult α)) (maxResults : Nat) : List (KWResult α) :=
  (dedupById getId (semantic ++ keyword) []).take maxResults

/-! ## AdvancedNLPProcessor (ai_advanced_engine.py)

The intent patterns of `AdvancedNLPProcessor` are Python regexes of the
shape `(?i)(alt₁|alt₂|…)` where each alternative `altᵢ` is a sequence of
literal words possibly joined by `.*` (as in `(find|…).*restaurant`,
`tip.*mâncare`, `when.*open`).  Such a regex finds a match in a string iff
some alternative's literals occur in order (with arbitrary gaps),
case-insensitively.  A pattern is therefore embedded as a list of
alternatives, each alternative being the list of its literals; `re.search`
of the pattern is existence of a matching alternative.  The second
`price_query` regex `(?i)(how much|pricing|affordable|$$)` contains the
alternative `$$` — two end-of-string anchors — which matches the empty
string at the end of ANY input, so `re.search` succeeds on every query;
that alternative is embedded as the empty literal sequence `[]`, which
also matches every string. -/

/-- Sequential containment: every literal occurs, in order, with arbitrary
gaps (`l₁.*l₂.*…`). -/
def matchSeq (s : PyS) : List PyS → Bool
  | [] => true
  | lit :: rest =>
    match afterFirst lit s with
    | some s' => matchSeq s' rest
    | none => false

/-- A pattern (list of alternatives of literal sequences) matches iff some
alternative matches; `(?i)` is modelled by lowercasing the query (the
literals are already lowercase). -/
def patMatches (q : PyS) (pat : List (List PyS)) : Bool :=
  pat.any fun alt => matchSeq (pyLower q) alt

/-- Shorthand for the common single-literal alternative. -/
def lit1 (w : String) : List PyS := [w.toList]

/-- Intent pattern table of `AdvancedNLPProcessor.intent_patterns`, in
source (insertion) order. -/
def advIntentPatterns : List (PyS × List (List (List PyS))) :=
  [ ("search_restaurant".toList,
      [ [["find".toList, "restaurant".toList], ["search".toList, "restaurant".toList],
         ["looking for".toList, "restaurant".toList], ["recommend".toList, "restaurant".toList],
         ["suggest".toList, "restaurant".toList]],
        [lit1 "where to eat", lit1 "food", lit1 "dining", lit1 "restaurant"],
        [lit1 "hungry", lit1 "meal", lit1 "lunch", lit1 "dinner", lit1 "breakfast"],
        [lit1 "cuisine", lit1 "food type", lit1 "italian", lit1 "chinese",
         lit1 "mexican", lit1 "indian"],
        [["găsește".toList, "restaurant".toList], ["caută".toList, "restaurant".toList],
         ["recomandă".toList, "restaurant".toList], ["sugerează".toList, "restaurant".toList]],
        [lit1 "unde să mănânc", lit1 "mâncare", lit1 "restaurant", lit1 "local"],
        [lit1 "foame", lit1 "masă", lit1 "prânz", lit1 "cină", lit1 "mic dejun"],
        [lit1 "bucătărie", ["tip".toList, "mâncare".toList], lit1 "italiana",
         lit1 "chinezească", lit1 "mexicană", lit1 "indiană"] ]),
    ("search_event".toList,
      [ [lit1 "event", lit1 "festival", lit1 "concert", lit1 "show", lit1 "performance"],
        [lit1 "what\x27s happening", lit1 "what to do", lit1 "entertainment"],
        [lit1 "tonight", lit1 "weekend", lit1 "today", lit1 "tomorrow"],
        [lit1 "music", lit1 "comedy", lit1 "theater", lit1 "art", lit1 "cultural"],
        [lit1 "eveniment", lit1 "festival", lit1 "concert", lit1 "spectacol",
         lit1 "performanță"],
        [lit1 "ce se întâmplă", lit1 "ce să fac", lit1 "divertisment"],
        [lit1 "diseară", lit1 "weekend", lit1 "astăzi", lit1 "mâine"],
        [lit1 "muzică", lit1 "comedie", lit1 "teatru", lit1 "artă", lit1 "cultural"] ]),
    ("location_query".toList,
      [ [lit1 "where", lit1 "location", lit1 "address", lit1 "directions"],
        [lit1 "near", lit1 "close to", lit1 "around", lit1 "nearby"],
        [lit1 "distance", lit1 "how far", lit1 "travel time"],
        [lit1 "unde", lit1 "locație", lit1 "adresă", lit1 "indicații"],
        [lit1 "aproape", lit1 "lângă", lit1 "în jurul", lit1 "în apropiere"],
        [lit1 "distanță", lit1 "cât de departe", lit1 "timp de călătorie"] ]),
    ("price_query".toList,
      [ [lit1 "price", lit1 "cost", lit1 "expensive", lit1 "cheap", lit1 "budget"],
        [lit1 "how much", lit1 "pricing", lit1 "affordable", []],
        [lit1 "preț", lit1 "cost", lit1 "scump", lit1 "ieftin", lit1 "buget"],
        [lit1 "cât costă", lit1 "prețuri", lit1 "accesibil"] ]),
    ("hours_query".toList,
      [ [lit1 "hours", lit1 "open", lit1 "closed", lit1 "time", lit1 "schedule"],
        [["when".toList, "open".toList], lit1 "opening hours", lit1 "business hours"],
        [lit1 "ore", lit1 "deschis", lit1 "închis", lit1 "timp", lit1 "program"],
        [["când".toList, "deschis".toList], lit1 "ore de deschidere",
         lit1 "program de lucru"] ]),
    ("reservation".toList,
      [ [lit1 "book", lit1 "reserve", lit1 "reservation", lit1 "table"],
        [lit1 "available", lit1 "booking", lit1 "schedule"],
        [lit1 "rezervă", lit1 "rezervare", lit1 "masă"],
        [lit1 "disponibil", lit1 "programare"] ]),
    ("review_query".toList,
      [ [lit1 "review", lit1 "rating", lit1 "opinion", lit1 "recommend"],
        [lit1 "good", lit1 "bad", lit1 "quality", lit1 "experience"],
        [lit1 "recenzie", lit1 "evaluare", lit1 "părere", lit1 "recomandă"],
        [lit1 "bun", lit1 "rău", lit1 "calitate", lit1 "experiență"] ]),
    ("comparison".toList,
      [ [lit1 "compare", lit1 "vs", lit1 "versus", lit1 "difference", lit1 "better"],
        [lit1 "which one", lit1 "what\x27s better", lit1 "recommend between"] ]) ]

/-- Per-intent hit counts of `AdvancedNLPProcessor.analyze_query` (the
Python `intent_scores` dict): every intent of the table gets an entry, with
the number of its patterns that match the query. -/
def advIntentScores (q : PyS) : List (PyS × Nat) :=
  advIntentPatterns.map fun ip => (ip.1, ip.2.countP fun pat => patMatches q pat)

/-- Hit count of one intent (`intent_scores.get(intent, 0)`). -/
def advScoreOf (q : PyS) (intent : PyS) : Nat :=
  ((advIntentScores q).lookup intent).getD 0

/-- Conversation context fields of `ConversationContext` read by
`analyze_query` (the remaining fields of the dataclass are not consulted by
the analysis). -/
structure ConvContext where
  current_intent : Option PyS
  search_history : List PyS

/-- Fresh context created by `ConversationMemory.get_or_create_context`. -/
def freshContext : ConvContext := ⟨none, []⟩

/-- Intent selection of `analyze_query` before the context override:
`max(intent_scores, key=intent_scores.get) if max(intent_scores.values()) > 0
else "general_query"`. -/
def advPrimaryIntent₀ (q : PyS) : PyS :=
  let scores := advIntentScores q
  if (scores.map Prod.snd).foldl Nat.max 0 > 0 then
    match pyMaxByVal scores with
    | some best => best.1
    | none => "general_query".toList
  else "general_query".toList

/-- Intent selection of `analyze_query` including the context override
(lines 195–197): when `context.current_intent` is truthy (neither `None`
nor the empty string) and occurs as a substring of the lowercased query,
the prior intent is kept. -/
def advPrimaryIntent (q : PyS) (ctx : ConvContext) : PyS :=
  match ctx.current_intent with
  | some ci => if ci ≠ [] ∧ isSub ci (pyLower q) then ci else advPrimaryIntent₀ q
  | none => advPrimaryIntent₀ q

/-- Result record of `analyze_query` restricted to the fields consulted by
the specification's claims (`intent` and `confidence`; the `entities` and
`alternative_intents` fields are not referenced by any claim). -/
structure QueryAnalysis where
  intent : PyS
  confidence : ℚ
deriving DecidableEq

instance {ε α : Type} [DecidableEq ε] [DecidableEq α] : DecidableEq (Except ε α) := fun x y =>
  match x, y with
  | .error a, .error b => decidable_of_iff (a = b) (by simp)
  | .error _, .ok _ => isFalse (by simp)
  | .ok _, .error _ => isFalse (by simp)
  | .ok a, .ok b => decidable_of_iff (a = b) (by simp)

/-- Number of rules of an intent in the pattern table
(`len(self.intent_patterns[intent])` when the intent is a key, `0`
otherwise). -/
def advPatCount (intent : PyS) : Nat :=
  ((advIntentPatterns.lookup intent).map List.length).getD 0

/-- Model of `AdvancedNLPProcessor.analyze_query`.  The confidence
expression `intent_scores.get(primary_intent, 0) /
max(1, len(self.intent_patterns[primary_intent]))` subscripts the pattern
dict with the primary intent; when the primary intent is not a key of the
table (e.g. the `"general_query"` default, or a context-override intent
that is not a table key) this raises `KeyError`, modelled as `.error`. -/
def analyze_query (q : PyS) (ctx : ConvContext) : Except PyS QueryAnalysis :=
  let primary := advPrimaryIntent q ctx
  if (advIntentPatterns.lookup primary).isSome then
    .ok ⟨primary, (advScoreOf q primary : ℚ) / ((max 1 (advPatCount primary) : ℕ) : ℚ)⟩
  else .error primary

/-- Evaluation helper: `analyze_query` on a query whose primary intent is a
key of the pattern table. -/
theorem analyze_query_eval_ok (q : PyS) (ctx : ConvContext) (i : PyS)
    (h1 : advPrimaryIntent q ctx = i)
    (h2 : (advIntentPatterns.lookup i).isSome = true) :
    analyze_query q ctx =
      .ok ⟨i, (advScoreOf q i : ℚ) / ((max 1 (advPatCount i) : ℕ) : ℚ)⟩ := by
  simp only [analyze_query, h1, h2, if_true]

/-- Evaluation helper: `analyze_query` on a query whose primary intent is
not a key of the pattern table (the `KeyError` branch). -/
theorem analyze_query_eval_err (q : PyS) (ctx : ConvContext) (i : PyS)
    (h1 : advPrimaryIntent q ctx = i)
    (h2 : (advIntentPatterns.lookup i).isSome = false) :
    analyze_query q ctx = .error i := by
  simp only [analyze_query, h1, h2, Bool.false_eq_true, if_false]

example : analyze_query "restaurant italian".toList freshContext =
    .ok ⟨"search_restaurant".toList, 3 / 8⟩ := by
  rw [analyze_query_eval_ok _ _ "search_restaurant".toList (by decide) (by decide)]
  rw [show advScoreOf "restaurant italian".toList "search_restaurant".toList = 3 from by decide]
  rw [show advPatCount "search_restaurant".toList = 8 from by decide]
  norm_num

example : analyze_query "mai arată-mi".toList
    ⟨some "search_restaurant".toList, ["restaurant italian".toList]⟩ =
    .ok ⟨"price_query".toList, 1 / 4⟩ := by
  rw [analyze_query_eval_ok _ _ "price_query".toList (by decide) (by decide)]
  rw [show advScoreOf "mai arată-mi".toList "price_query".toList = 1 from by decide]
  rw [show advPatCount "price_query".toList = 4 from by decide]
  norm_num

example : analyze_query "zz".toList ⟨some "zz".toList, []⟩ = .error "zz".toList :=
  analyze_query_eval_err _ _ _ (by decide) (by decide)

/-! ## SmartChatbot (ai_smart_chatbot.py) -/

/-- Entity vocabularies of `SmartChatbot.context_patterns`, in source
order. -/
def sbContextPatterns : List (PyS × List PyS) :=
  [ ("cuisine_types".toList,
      ["italian".toList, "românesc".toList, "chinezesc".toList, "indian".toList,
       "mexican".toList, "frantuzesc".toList, "american".toList, "grec".toList,
       "turcesc".toList]),
    ("meal_times".toList,
      ["mic dejun".toList, "prânz".toList, "cină".toList, "brunch".toList,
       "gustare".toList]),
    ("event_types".toList,
      ["concert".toList, "spectacol".toList, "festival".toList,
       "petrecere".toList, "conferință".toList, "expoziție".toList]),
    ("locations".toList,
      ["centru".toList, "zona veche".toList, "mall".toList, "aproape".toList,
       "lângă".toList]),
    ("price_ranges".toList,
      ["ieftin".toList, "scump".toList, "mediu".toList, "buget".toList,
       "luxos".toList]) ]

/-- Model of `SmartChatbot.extract_entities`: for each vocabulary, the terms
that occur as substrings of the lowercased query (every category key is
present, possibly with an empty list). -/
def sb_extract_entities (q : PyS) : List (PyS × List PyS) :=
  sbContextPatterns.map fun cat =>
    (cat.1, cat.2.filter fun term => isSub term (pyLower q))

/-- Entity list of one category (`entities.get(category, [])`). -/
def sbEntitiesOf (entities : List (PyS × List PyS)) (cat : PyS) : List PyS :=
  ((entities.lookup cat).getD [])

/-- Model of `SmartChatbot.analyze_intent_and_context` restricted to the
`(intent, confidence)` pair (the returned dict's further fields
`entities`, `query_length`, `has_question` are reconstructed from
`sb_extract_entities` and the query by the caller and are not consulted by
any claim).  The four pattern groups are tested in source order and each
later matching group overrides the earlier ones. -/
def analyze_intent_and_context (q : PyS) : PyS × ℚ :=
  let ql := pyLower q
  let ic : PyS × ℚ := ("general".toList, 1 / 2)
  let greetingPats := ["salut".toList, "buna".toList, "hello".toList,
    "hei".toList, "ce faci".toList, "buna ziua".toList]
  let ic := if greetingPats.any (fun p => isSub p ql) then ("greeting".toList, (9 : ℚ) / 10) else ic
  let restaurantPats := ["restaurant".toList, "mancare".toList,
    "unde sa mananc".toList, "pizza".toList, "burger".toList, "meniu".toList,
    "bucatarie".toList]
  let ic := if restaurantPats.any (fun p => isSub p ql) then ("restaurant_search".toList, (4 : ℚ) / 5) else ic
  let eventPats := ["eveniment".toList, "concert".toList, "spectacol".toList,
    "festival".toList, "ce se intampla".toList]
  let ic := if eventPats.any (fun p => isSub p ql) then ("event_search".toList, (4 : ℚ) / 5) else ic
  let helpPats := ["ajuta".toList, "help".toList, "ce poti face".toList,
    "cum functionezi".toList]
  let ic := if helpPats.any (fun p => isSub p ql) then ("help".toList, (9 : ℚ) / 10) else ic
  ic

/-- Restaurant record consumed by `SmartChatbot.search_restaurants` (the
backend JSON dict; fields read by the scoring loop). -/
structure SBRestaurant where
  id : Int
  name : PyS
  category : PyS
  address : PyS
  description : PyS
  tags : List PyS

/-- Event record consumed by `SmartChatbot.search_events`. -/
structure SBEvent where
  id : Int
  title : PyS
  description : PyS
  company : PyS
  tags : List PyS
  likes : Int

/-- Scoring loop of `SmartChatbot.search_restaurants` for one restaurant:
+3 when some query word occurs in the name, +2 for the category, +2 per
matched cuisine entity occurring in category or description, +1 per tag
containing some query word, +1 when some query word occurs in the
description. -/
def sbRestaurantScore (q : PyS) (entities : List (PyS × List PyS)) (r : SBRestaurant) : Nat :=
  let qwords := pySplitWs (pyLower q)
  let s1 := if qwords.any (fun w => isSub w (pyLower r.name)) then 3 else 0
  let s2 := if qwords.any (fun w => isSub w (pyLower r.category)) then 2 else 0
  let s3 := 2 * ((sbEntitiesOf entities "cuisine_types".toList).countP fun cuisine =>
    isSub cuisine (pyLower r.category) || isSub cuisine (pyLower r.description))
  let s4 := r.tags.countP fun tag => qwords.any (fun w => isSub w (pyLower tag))
  let s5 := if qwords.any (fun w => isSub w (pyLower r.description)) then 1 else 0
  s1 + s2 + s3 + s4 + s5

/-- Model of `SmartChatbot.search_restaurants`: keep positively scored
restaurants, sort stably descending by score, return the top 5. -/
def sb_search_restaurants (q : PyS) (entities : List (PyS × List PyS))
    (restaurants : List SBRestaurant) : List (SBRestaurant × Nat) :=
  let results := restaurants.filterMap fun r =>
    let score := sbRestaurantScore q entities r
    if score > 0 then some (r, score) else none
  (pySortDescBy (fun x => (x.2 : ℚ)) results).take 5

/-- Scoring loop of `SmartChatbot.search_events` for one event: +3 when some
query word occurs in the title, +2 per matched event-type entity occurring
in title or description, +1 per tag containing some query word, +1 when
some query word occurs in the description. -/
def sbEventScore (q : PyS) (entities : List (PyS × List PyS)) (e : SBEvent) : Nat :=
  let qwords := pySplitWs (pyLower q)
  let s1 := if qwords.any (fun w => isSub w (pyLower e.title)) then 3 else 0
  let s2 := 2 * ((sbEntitiesOf entities "event_types".toList).countP fun et =>
    isSub et (pyLower e.title) || isSub et (pyLower e.description))
  let s3 := e.tags.countP fun tag => qwords.any (fun w => isSub w (pyLower tag))
  let s4 := if qwords.any (fun w => isSub w (pyLower e.description)) then 1 else 0
  s1 + s2 + s3 + s4

/-- Model of `SmartChatbot.search_events`. -/
def sb_search_events (q : PyS) (entities : List (PyS × List PyS))
    (events : List SBEvent) : List (SBEvent × Nat) :=
  let results := events.filterMap fun e =>
    let score := sbEventScore q entities e
    if score > 0 then some (e, score) else none
  (pySortDescBy (fun x => (x.2 : ℚ)) results).take 5

/-- Search dispatch of `SmartChatbot.get_chat_response` (lines 395–404):
restaurants are searched only for intents `restaurant_search`/`general`,
events only for `event_search`/`general`; for all other intents both result
lists stay empty. -/
def sb_search_results (q : PyS) (intent : PyS)
    (restaurants : List SBRestaurant) (events : List SBEvent) :
    List (SBRestaurant × Nat) × List (SBEvent × Nat) :=
  let entities := sb_extract_entities q
  ( if intent = "restaurant_search".toList ∨ intent = "general".toList then
      sb_search_restaurants q entities restaurants
    else [],
    if intent = "event_search".toList ∨ intent = "general".toList then
      sb_search_events q entities events
    else [] )

example : (analyze_intent_and_context "Salut!".toList).1 = "greeting".toList := by decide

/-! ## ConversationMemory (ai_advanced_engine.py) -/

/-- Python list slice `lst[-n:]`.  For `n ≥ 1` this is the suffix of the
last `n` elements; for `n = 0`, `lst[-0:]` is `lst[0:]`, the whole list
(the CPython negative-index quirk). -/
def pySliceLastN {α : Type} (n : Nat) (l : List α) : List α :=
  if n = 0 then l else l.drop (l.length - n)

/-- Conversation store of `ConversationMemory`: the dict
`self.conversations` is keyed by the joined string `f"{user_id}:{session_id}"`;
only the `conversation_history` field of each context is consulted by the
history-bound claim, so the store is modelled as the map from joined keys
to histories (`get_or_create_context` starts a missing key at `[]`). -/
def memKey (user_id session_id : PyS) : PyS := user_id ++ ':' :: session_id

/-- Model of `ConversationMemory.add_message` on the history of one key:
append, then truncate to the last `max_history` entries when the bound is
exceeded. -/
def add_message {α : Type} (max_history : Nat) (history : List α) (msg : α) : List α :=
  let h := history ++ [msg]
  if h.length > max_history then pySliceLastN max_history h else h

/-- A sequence of `add_message` calls against the store: each operation
carries its user id, session id and message.  Returns the stored history of
the given joined key after all operations, starting from the empty store. -/
def runAddMessages {α : Type} (max_history : Nat)
    (ops : List (PyS × PyS × α)) (key : PyS) : List α :=
  ops.foldl
    (fun h op => if memKey op.1 op.2.1 = key then add_message max_history h op.2.2 else h)
    []

/-- Messages submitted for a given joined key, in operation order. -/
def submittedFor {α : Type} (ops : List (PyS × PyS × α)) (key : PyS) : List α :=
  (ops.filter fun op => memKey op.1 op.2.1 = key).map fun op => op.2.2

/-! ## Redis cache (ai_advanced_engine.py `_get_from_cache`/`_save_to_cache`,
ai_recommender_backend_simple.py `get_from_cache`/`set_cache`) -/

/-- Pluggable cache backend: `get` may raise (network failure,
`json.loads` failure — both are caught by the callers and folded into the
error case) and may miss; `setex` may raise. -/
structure RedisClient (α : Type) where
  get : PyS → Except PyS (Option α)
  setex : PyS → Nat → α → Except PyS Unit

/-- Model of `AdvancedAIEngine._get_from_cache` (and of
`EnhancedAIRecommenderBackendSimple.get_from_cache`, which has the same
structure): `None` without a configured client; on a configured client,
`None` when the read raises or misses, the parsed value otherwise. -/
def get_from_cache {α : Type} : Option (RedisClient α) → PyS → Option α
  | none, _ => none
  | some c, key =>
    match c.get key with
    | .error _ => none
    | .ok r => r

/-- Model of `AdvancedAIEngine._save_to_cache` (and of `set_cache`): a
no-op without a configured client; with one, the write is attempted and an
exception is swallowed.  The returned Boolean records whether a write
took effect (the Python function returns `None`; the Boolean is the
observable effect on the backend). -/
def save_to_cache {α : Type} : Option (RedisClient α) → PyS → Nat → α → Bool
  | none, _, _, _ => false
  | some c, key, ttl, data =>
    match c.setex key ttl data with
    | .error _ => false
    | .ok _ => true

/-! ## AdvancedAIEngine.process_query orchestration (ai_advanced_engine.py)

The engine's fallible collaborator calls are modelled as explicit outcome
parameters: `restaurantFetch`/`eventFetch` stand for the results of the
`await self._search_restaurants(...)`/`_search_events(...)` coroutines
seen from `_get_recommendations`' inner `try` (an `.error` value models the
call raising), and the cache backend is the `RedisClient` model above.
Wall-clock timing, logging and the response-text assembly inside
`IntelligentResponseGenerator` (cosmetic string templating, excluded from
the specified core) are not modelled; the response record keeps the fields
the claims consult. -/

/-- Response record of `AIResponse` restricted to the fields consulted by
the claims (`text`, `confidence`, `intent`, `recommendations`; the
`entities`, `follow_up_questions`, `conversation_context`,
`processing_time`, `sources` and `metadata` fields are not referenced by
any claim). -/
structure AIResponse (Rec : Type) where
  text : PyS
  confidence : ℚ
  intent : PyS
  recommendations : List Rec

/-- Record construction of
`IntelligentResponseGenerator.generate_response`: `intent` and
`confidence` are copied from the analysis, `recommendations` is the
recommendation list; the text is assembled from the response templates
(cosmetic string templating, excluded from the specified core and not
modelled — the field is left empty on the success path). -/
def generate_response {Rec : Type} (a : QueryAnalysis) (recs : List Rec) : AIResponse Rec :=
  ⟨[], a.confidence, a.intent, recs⟩

/-- Inner recommendation retrieval of `AdvancedAIEngine._get_recommendations`
(lines 624–658): cache hit short-circuits; otherwise the intent dispatches
to the restaurant/event search calls whose exceptions are caught by the
inner `try` (leaving `recommendations = []`); the fresh result is written
back to the cache. -/
def get_recommendations {Rec : Type} (client : Option (RedisClient (List Rec)))
    (cacheKey : PyS) (intent : PyS)
    (restaurantFetch eventFetch : Except PyS (List Rec)) : List Rec :=
  match get_from_cache client cacheKey with
  | some cached => cached
  | none =>
    let fresh : Except PyS (List Rec) :=
      if intent = "search_restaurant".toList then restaurantFetch
      else if intent = "search_event".toList then eventFetch
      else if intent = "general_query".toList then do
        let restaurants ← restaurantFetch
        let events ← eventFetch
        pure (restaurants.take 3 ++ events.take 3)
      else pure []
    match fresh with
    | .ok recs => recs
    | .error _ => []

/-- Static apology response of `process_query`'s `except` branch:
intent `error`, empty recommendations, confidence `0`, fixed text. -/
def errorResponse {Rec : Type} : AIResponse Rec :=
  ⟨"I apologize, but I encountered an error processing your request. Please try again.".toList,
   0, "error".toList, []⟩

/-- Model of `AdvancedAIEngine.process_query`: the body analyzes the query
(which may raise, e.g. the `KeyError` of `analyze_query`), retrieves
recommendations through `_get_recommendations` (whose internal failures are
already caught there) and assembles the response; any exception escaping
the body is caught by the outermost `try` and converted into
`errorResponse`. -/
def process_query {Rec : Type} (q : PyS) (ctx : ConvContext)
    (client : Option (RedisClient (List Rec))) (cacheKey : PyS)
    (restaurantFetch eventFetch : Except PyS (List Rec)) : AIResponse Rec :=
  match analyze_query q ctx with
  | .error _ => errorResponse
  | .ok a =>
    let recs := get_recommendations client cacheKey a.intent restaurantFetch eventFetch
    generate_response a recs

/-! ## AIRecommender.normalize_query (ai_recommender.py) -/

/-- Word characters of `re.findall(r'\w+', ·)` on the modelled repertoire:
ASCII letters and digits, the underscore, and the Romanian diacritic
letters. -/
def isWordChar (c : Char) : Bool :=
  ('a' ≤ c ∧ c ≤ 'z') ∨ ('A' ≤ c ∧ c ≤ 'Z') ∨ ('0' ≤ c ∧ c ≤ '9') ∨ c = '_' ∨
    c = 'ă' ∨ c = 'â' ∨ c = 'î' ∨ c = 'ș' ∨ c = 'ț' ∨ c = 'ţ' ∨
    c = 'Ă' ∨ c = 'Â' ∨ c = 'Î' ∨ c = 'Ș' ∨ c = 'Ț'

/-- Model of `re.findall(r'\w+', s)`: the maximal runs of word
characters. -/
def findWordRuns (s : PyS) : List PyS := runsBy isWordChar s

/-- ASCII digits (`str.isdigit` on the token repertoire produced by the
normalizer). -/
def isDigitChar (c : Char) : Bool := '0' ≤ c ∧ c ≤ '9'

/-- The `stop_words` set literal of `AIRecommender.__init__` (duplicated
literals in the Python set display are harmless for membership). -/
def stop_words : List PyS :=
  ["unde", "pot", "sa", "să", "găsesc", "gasesc", "care", "ce", "cu", "la",
   "un", "o", "exista", "aveti", "imi", "doresc", "vreau", "caut", "vad",
   "loc", "locul", "locuri", "mi", "ne", "vă", "le", "și", "sau", "pentru",
   "in", "în", "pe", "de", "despre", "ca", "că", "este", "sunt",
   "era", "au", "fi", "fost", "fie", "fara", "fără", "dar", "din", "dintre",
   "dupa", "după", "prin", "pana", "până", "catre", "către", "peste",
   "sub", "spre", "intre", "între", "asupra", "contra", "impotriva", "împotriva",
   "desi", "deși", "daca", "dacă", "deci", "caci", "căci", "da", "nu", "poate",
   "cam", "prea", "foarte", "mai", "mult", "putin", "puțin", "atât", "atat", "cât",
   "cat", "câtva", "catva", "câți", "cati", "câte", "cate", "câteva",
   "cateva", "atâta", "atata", "atâția", "atatia", "atatea", "acest", "această",
   "aceste", "acela", "aceea", "aceia", "acestui", "acestei", "acestora", "acelasi",
   "același", "astfel", "atare", "acel", "aceeași", "alt", "alta", "alte", "altul",
   "alții", "altele", "altceva", "altcineva", "niste", "niște", "vreun", "vreo",
   "vrun", "vru", "niciun", "nici", "unii", "unele", "unor", "various", "diverse",
   "fel", "tip", "gen", "sort", "specie", "lua", "bea", "mânca", "servi", "cumpăra",
   "vedea", "găsi", "recomanda", "sugera", "cere", "dori", "putea", "trebui", "incerca",
   "încerca", "părea", "ajuta", "cred", "gând", "ști", "stiu", "crede", "considera",
   "parere", "părere", "punct", "vedere", "privire", "datorita", "datorită", "grație",
   "mulțumită", "conform", "potrivit", "asemenea", "similar", "si", "ori",
   "respectiv", "respectivi", "etc", "altfel", "altminteri", "dealtfel",
   "insa", "însă", "totusi", "totuși", "ci", "doar", "numai", "pur", "simplu", "aproape",
   "relativ", "destul", "extrem", "teribil",
   "excesiv", "deloc", "absolut", "complet",
   "total", "parțial", "parţial", "aproximativ", "circa", "citiva", "câțiva"].map
    String.toList

/-- `normalized_stop_words`: the stop words with diacritics removed,
precomputed in `__init__`. -/
def normalized_stop_words : List PyS := stop_words.map remove_diacritics

/-- Model of `AIRecommender.normalize_query`: remove diacritics, tokenize
the lowercased text with `re.findall(r'\w+', ·)`, keep tokens that are not
normalized stop words, have length > 1 and are not purely numeric, and join
the survivors with single spaces. -/
def normalize_query (q : PyS) : PyS :=
  let words := findWordRuns (pyLower (remove_diacritics q))
  let clean_words := words.filter fun w =>
    ¬ w ∈ normalized_stop_words ∧ w.length > 1 ∧ ¬ w.all isDigitChar
  List.intercalate [' '] clean_words

example : normalize_query "Unde pot să găsesc pizza bună în centru?".toList =
    "pizza buna centru".toList := by decide
example : normalize_query (normalize_query "Unde pot să găsesc pizza bună în centru?".toList) =
    normalize_query "Unde pot să găsesc pizza bună în centru?".toList := by decide

/-! ## Idempotence of the normalizers (claim C6) -/

/-- A character is normal when all three character-level stages of the
normalizers leave it unchanged: the diacritics replacement, the NFKD strip
and lowercasing. -/
def NormChar (c : Char) : Prop :=
  diacriticsMapChar c = c ∧ nfkdStripChar c = some c ∧ pyLowerChar c = c

theorem normChar_space : NormChar ' ' := by
  refine ⟨by decide, by decide, by decide⟩

/-- Unfolding of `Char.ofNat` at a valid code point. -/
theorem charToNatOfNat (n : Nat) (h : Nat.isValidChar n) : (Char.ofNat n).toNat = n := by
  unfold Char.ofNat
  split
  · rfl
  · contradiction

/-- Helper: the ASCII-lowercase image of an uppercase ASCII letter. -/
theorem charShift32 (c : Char) (_h1 : 'A' ≤ c) (h2 : c ≤ 'Z') :
    (Char.ofNat (c.toNat + 32)).toNat = c.toNat + 32 := by
  have hv : c.toNat ≤ 90 := h2
  apply charToNatOfNat
  unfold Nat.isValidChar
  omega

/-- Characters are equal iff their numeric values are. -/
theorem charEqIffToNat (a b : Char) : a = b ↔ a.toNat = b.toNat := by
  constructor
  · intro h; rw [h]
  · intro h
    apply Char.ext
    unfold Char.toNat at h
    exact UInt32.toNat.inj h

set_option maxHeartbeats 2000000 in
/-- The character-level pipeline shared by both normalizers lands in normal
characters: the lowercase image of any character surviving the NFKD strip is
a fixed point of all three stages. -/
theorem normChar_of_strip (c d : Char) (h : nfkdStripChar c = some d) :
    NormChar (pyLowerChar d) := by
  unfold nfkdStripChar at h
  split_ifs at h with h1 h2 h3 h4 h5 h6 h7 h8 h9 h10 h11 h12
  all_goals simp only [Option.some.injEq] at h
  all_goals subst h
  all_goals try exact ⟨by decide, by decide, by decide⟩
  -- default branch: `d = c` with `c` outside the strip table
  by_cases hA : 'A' ≤ c ∧ c ≤ 'Z'
  · -- uppercase ASCII: the image is a lowercase ASCII letter
    have hn := charShift32 c hA.1 hA.2
    have hlo : 65 ≤ c.toNat := hA.1
    have hhi : c.toNat ≤ 90 := hA.2
    have hc : pyLowerChar c = Char.ofNat (c.toNat + 32) := by
      unfold pyLowerChar
      rw [if_pos hA]
    rw [hc]
    set e := Char.ofNat (c.toNat + 32) with he
    have hen : e.toNat = c.toNat + 32 := hn
    have hneHigh : ∀ x : Char, 123 ≤ x.toNat → e ≠ x := by
      intro x hx hexx
      have := (charEqIffToNat e x).mp hexx
      omega
    have heA : ¬ ('A' ≤ e ∧ e ≤ 'Z') := by
      intro hcon
      have : e.toNat ≤ 90 := hcon.2
      omega
    have heComb : ¬ (768 ≤ e.toNat ∧ e.toNat ≤ 879) := by omega
    refine ⟨?_, ?_, ?_⟩
    · unfold diacriticsMapChar
      rw [if_neg (hneHigh 'ă' (by decide)), if_neg (hneHigh 'â' (by decide)),
        if_neg (hneHigh 'î' (by decide)), if_neg (hneHigh 'ș' (by decide)),
        if_neg (hneHigh 'ț' (by decide)), if_neg (hneHigh 'Ă' (by decide)),
        if_neg (hneHigh 'Â' (by decide)), if_neg (hneHigh 'Î' (by decide)),
        if_neg (hneHigh 'Ș' (by decide)), if_neg (hneHigh 'Ț' (by decide))]
    · unfold nfkdStripChar
      rw [if_neg heComb, if_neg (hneHigh 'ă' (by decide)), if_neg (hneHigh 'â' (by decide)),
        if_neg (hneHigh 'î' (by decide)), if_neg (hneHigh 'ș' (by decide)),
        if_neg (hneHigh 'ț' (by decide)), if_neg (hneHigh 'ţ' (by decide)),
        if_neg (hneHigh 'Ă' (by decide)), if_neg (hneHigh 'Â' (by decide)),
        if_neg (hneHigh 'Î' (by decide)), if_neg (hneHigh 'Ș' (by decide)),
        if_neg (hneHigh 'Ț' (by decide))]
    · unfold pyLowerChar
      rw [if_neg heA, if_neg (hneHigh 'Ă' (by decide)), if_neg (hneHigh 'Â' (by decide)),
        if_neg (hneHigh 'Î' (by decide)), if_neg (hneHigh 'Ș' (by decide)),
        if_neg (hneHigh 'Ț' (by decide))]
  · -- not an uppercase ASCII letter and outside the Romanian tables
    have hc : pyLowerChar c = c := by
      unfold pyLowerChar
      rw [if_neg hA, if_neg h8, if_neg h9, if_neg h10, if_neg h11, if_neg h12]
    rw [hc]
    refine ⟨?_, ?_, ?_⟩
    · unfold diacriticsMapChar
      rw [if_neg h2, if_neg h3, if_neg h4, if_neg h5, if_neg h6,
        if_neg h8, if_neg h9, if_neg h10, if_neg h11, if_neg h12]
    · unfold nfkdStripChar
      rw [if_neg h1, if_neg h2, if_neg h3, if_neg h4, if_neg h5, if_neg h6,
        if_neg h7, if_neg h8, if_neg h9, if_neg h10, if_neg h11, if_neg h12]
    · exact hc

/-- A `filterMap` whose function fixes every member is the identity. -/
theorem filterMap_id_of_fix {α : Type} (f : α → Option α) :
    ∀ l : List α, (∀ c ∈ l, f c = some c) → l.filterMap f = l
  | [], _ => rfl
  | c :: rest, h => by
    rw [List.filterMap_cons, h c (by simp)]
    rw [filterMap_id_of_fix f rest fun x hx => h x (by simp [hx])]

/-- A `map` whose function fixes every member is the identity. -/
theorem map_id_of_fix {α : Type} (f : α → α) :
    ∀ l : List α, (∀ c ∈ l, f c = c) → l.map f = l
  | [], _ => rfl
  | c :: rest, h => by
    rw [List.map_cons, h c (by simp)]
    rw [map_id_of_fix f rest fun x hx => h x (by simp [hx])]

/-- A `filter` that every member passes is the identity. -/
theorem filter_id_of_sat {α : Type} (f : α → Bool) :
    ∀ l : List α, (∀ c ∈ l, f c = true) → l.filter f = l
  | [], _ => rfl
  | c :: rest, h => by
    rw [List.filter_cons_of_pos (h c (by simp))]
    rw [filter_id_of_sat f rest fun x hx => h x (by simp [hx])]

/-- `pyStrip` is `List.rdropWhile` after `List.dropWhile`. -/
theorem pyStrip_eq (s : PyS) :
    pyStrip s = List.rdropWhile isPySpace (List.dropWhile isPySpace s) := rfl

/-- Members of `pyStrip s` are members of `s`. -/
theorem pyStrip_mem {s : PyS} {c : Char} (h : c ∈ pyStrip s) : c ∈ s := by
  rw [pyStrip_eq] at h
  exact (List.dropWhile_suffix isPySpace).mem
    ((List.rdropWhile_prefix isPySpace _).mem h)

/-- `pyStrip` is idempotent. -/
theorem pyStrip_idem (s : PyS) : pyStrip (pyStrip s) = pyStrip s := by
  rw [pyStrip_eq, pyStrip_eq]
  have h2 : List.dropWhile isPySpace
      (List.rdropWhile isPySpace (List.dropWhile isPySpace s)) =
      List.rdropWhile isPySpace (List.dropWhile isPySpace s) := by
    cases hx : List.rdropWhile isPySpace (List.dropWhile isPySpace s) with
    | nil => simp
    | cons c x' =>
      have hpre := List.rdropWhile_prefix isPySpace (List.dropWhile isPySpace s)
      rw [hx] at hpre
      rcases hpre with ⟨u, hu⟩
      have hq := List.head?_dropWhile_not isPySpace s
      have hhead : (List.dropWhile isPySpace s).head? = some c := by
        rw [← hu]; simp
      rw [hhead] at hq
      rw [List.dropWhile_cons_of_neg (by simp [hq])]
  rw [h2, List.rdropWhile_idempotent]

/-- Every character of a `normalize_text` output is normal. -/
theorem normalize_text_chars (s : PyS) : ∀ x ∈ normalize_text s, NormChar x := by
  intro x hx
  have hx2 : x ∈ pyLower (remove_diacritics (s.map diacriticsMapChar)) := pyStrip_mem hx
  rcases List.mem_map.mp hx2 with ⟨d, hd, hxd⟩
  rcases List.mem_filterMap.mp hd with ⟨c, _, hcd⟩
  rw [← hxd]
  exact normChar_of_strip c d hcd

/-- Idempotence of `normalize_text`. -/
theorem normalize_text_idem (s : PyS) :
    normalize_text (normalize_text s) = normalize_text s := by
  have hch := normalize_text_chars s
  show pyStrip (pyLower (remove_diacritics ((normalize_text s).map diacriticsMapChar))) = _
  rw [map_id_of_fix _ (normalize_text s) fun c hc => (hch c hc).1]
  rw [show remove_diacritics (normalize_text s) = normalize_text s from
    filterMap_id_of_fix _ (normalize_text s) fun c hc => (hch c hc).2.1]
  rw [show pyLower (normalize_text s) = normalize_text s from
    map_id_of_fix _ (normalize_text s) fun c hc => (hch c hc).2.2]
  exact pyStrip_idem _

/-- Processing a block of `p`-characters pushes it (reversed) onto the
accumulator. -/
theorem runsByAux_all_push (p : Char → Bool) :
    ∀ (w : List Char), (∀ c ∈ w, p c = true) → ∀ (cur r : List Char),
      runsByAux p cur (w ++ r) = runsByAux p (w.reverse ++ cur) r
  | [], _, cur, r => by simp
  | c :: w', hw, cur, r => by
    have hc : p c = true := hw c (by simp)
    show runsByAux p cur (c :: (w' ++ r)) = _
    rw [runsByAux, if_pos hc]
    rw [runsByAux_all_push p w' (fun d hd => hw d (by simp [hd])) (c :: cur) r]
    simp

/-- A lone block of `p`-characters is one run. -/
theorem runsBy_all (p : Char → Bool) (w : List Char) (hne : w ≠ [])
    (hw : ∀ c ∈ w, p c = true) : runsBy p w = [w] := by
  have h := runsByAux_all_push p w hw [] []
  rw [List.append_nil] at h
  unfold runsBy
  rw [h, List.append_nil, runsByAux, if_neg (by simpa using hne)]
  simp

theorem intercalate_nil (sep : Char) : List.intercalate [sep] ([] : List PyS) = [] := by
  simp [List.intercalate]

theorem intercalate_single (sep : Char) (w : PyS) : List.intercalate [sep] [w] = w := by
  simp [List.intercalate]

theorem intercalate_cons₂ (sep : Char) (w v : PyS) (ws : List PyS) :
    List.intercalate [sep] (w :: v :: ws) = w ++ sep :: List.intercalate [sep] (v :: ws) := by
  simp [List.intercalate, List.intersperse]

/-- Splitting the space-joined list of nonempty all-`p` words recovers the
words. -/
theorem runsBy_intercalate (p : Char → Bool) (sep : Char) (hsep : p sep = false) :
    ∀ ws : List PyS, (∀ w ∈ ws, w ≠ [] ∧ ∀ c ∈ w, p c = true) →
      runsBy p (List.intercalate [sep] ws) = ws
  | [], _ => by rw [intercalate_nil]; rfl
  | [w], h => by
    rw [intercalate_single]
    exact runsBy_all p w (h w (by simp)).1 (h w (by simp)).2
  | w :: v :: ws, h => by
    rw [intercalate_cons₂]
    unfold runsBy
    rw [runsByAux_all_push p w (h w (by simp)).2 [] _, List.append_nil]
    rw [runsByAux, if_neg (by simp [hsep])]
    rw [if_neg (by simpa using (h w (by simp)).1)]
    rw [List.reverse_reverse]
    have := runsBy_intercalate p sep hsep (v :: ws) fun x hx => h x (by simp [hx])
    unfold runsBy at this
    rw [this]

/-- Members of `runsByAux` are nonempty runs of `p`-characters drawn from
the input (or the accumulator). -/
theorem runsByAux_mem (p : Char → Bool) :
    ∀ (l cur : List Char), (∀ c ∈ cur, p c = true) →
      ∀ w ∈ runsByAux p cur l, w ≠ [] ∧ ∀ c ∈ w, p c = true ∧ (c ∈ l ∨ c ∈ cur) := by
  intro l
  induction l with
  | nil =>
    intro cur hcur w hw
    rw [runsByAux] at hw
    by_cases hc : cur = []
    · rw [if_pos hc] at hw
      exact absurd hw (by simp)
    · rw [if_neg hc] at hw
      have hwc : w = cur.reverse := by simpa using hw
      subst hwc
      refine ⟨by simpa using hc, fun c hcw => ?_⟩
      have : c ∈ cur := by simpa using hcw
      exact ⟨hcur c this, Or.inr this⟩
  | cons a rest ih =>
    intro cur hcur w hw
    rw [runsByAux] at hw
    by_cases ha : p a = true
    · rw [if_pos ha] at hw
      have hcur' : ∀ c ∈ a :: cur, p c = true := by
        intro c hc
        rcases List.mem_cons.mp hc with h | h
        · rw [h]; exact ha
        · exact hcur c h
      rcases ih (a :: cur) hcur' w hw with ⟨hne, hall⟩
      refine ⟨hne, fun c hc => ?_⟩
      rcases hall c hc with ⟨hp, hmem⟩
      refine ⟨hp, ?_⟩
      rcases hmem with h | h
      · exact Or.inl (by simp [h])
      · rcases List.mem_cons.mp h with h | h
        · exact Or.inl (by simp [h])
        · exact Or.inr h
    · rw [if_neg ha] at hw
      by_cases hc : cur = []
      · rw [if_pos hc] at hw
        rcases ih [] (by simp) w hw with ⟨hne, hall⟩
        refine ⟨hne, fun c hcw => ?_⟩
        rcases hall c hcw with ⟨hp, hmem⟩
        refine ⟨hp, ?_⟩
        rcases hmem with h | h
        · exact Or.inl (by simp [h])
        · exact absurd h (by simp)
      · rw [if_neg hc] at hw
        rcases List.mem_cons.mp hw with hwc | hw'
        · subst hwc
          refine ⟨by simpa using hc, fun c hcw => ?_⟩
          have : c ∈ cur := by simpa using hcw
          exact ⟨hcur c this, Or.inr this⟩
        · rcases ih [] (by simp) w hw' with ⟨hne, hall⟩
          refine ⟨hne, fun c hcw => ?_⟩
          rcases hall c hcw with ⟨hp, hmem⟩
          refine ⟨hp, ?_⟩
          rcases hmem with h | h
          · exact Or.inl (by simp [h])
          · exact absurd h (by simp)

/-- Members of `runsBy` are nonempty runs of `p`-characters drawn from the
input. -/
theorem runsBy_mem (p : Char → Bool) (l : List Char) (w : PyS)
    (hw : w ∈ runsBy p l) : w ≠ [] ∧ ∀ c ∈ w, p c = true ∧ c ∈ l := by
  rcases runsByAux_mem p l [] (by simp) w hw with ⟨hne, hall⟩
  refine ⟨hne, fun c hc => ?_⟩
  rcases hall c hc with ⟨hp, hm | hm⟩
  · exact ⟨hp, hm⟩
  · exact absurd hm (by simp)

/-- Members of a space-joined word list are the separator or word
characters. -/
theorem mem_intercalate (sep : Char) :
    ∀ (ws : List PyS) (c : Char), c ∈ List.intercalate [sep] ws →
      c = sep ∨ ∃ w ∈ ws, c ∈ w
  | [], c, h => by rw [intercalate_nil] at h; exact absurd h (by simp)
  | [w], c, h => by
    rw [intercalate_single] at h
    exact Or.inr ⟨w, by simp, h⟩
  | w :: v :: ws, c, h => by
    rw [intercalate_cons₂] at h
    rcases List.mem_append.mp h with h | h
    · exact Or.inr ⟨w, by simp, h⟩
    · rcases List.mem_cons.mp h with h | h
      · exact Or.inl h
      · rcases mem_intercalate sep (v :: ws) c h with h | ⟨u, hu, hcu⟩
        · exact Or.inl h
        · exact Or.inr ⟨u, by simp [List.mem_cons.mp hu], hcu⟩

/-- Every character of the base text tokenized by `normalize_query` is
normal. -/
theorem nq_base_chars (q : PyS) :
    ∀ x ∈ pyLower (remove_diacritics q), NormChar x := by
  intro x hx
  rcases List.mem_map.mp hx with ⟨d, hd, hxd⟩
  rcases List.mem_filterMap.mp hd with ⟨c, _, hcd⟩
  rw [← hxd]
  exact normChar_of_strip c d hcd

/-- Idempotence of `normalize_query`. -/
theorem normalize_query_idem (q : PyS) :
    normalize_query (normalize_query q) = normalize_query q := by
  have hbase := nq_base_chars q
  set base := pyLower (remove_diacritics q) with hbdef
  set cw := (findWordRuns base).filter
    (fun w => decide (¬ w ∈ normalized_stop_words ∧ w.length > 1 ∧ ¬ w.all isDigitChar)) with hcw
  have hout : normalize_query q = List.intercalate [' '] cw := rfl
  -- facts about the kept tokens
  have htok : ∀ w ∈ cw, w ≠ [] ∧ ∀ c ∈ w, isWordChar c = true ∧ NormChar c := by
    intro w hw
    have hw' : w ∈ findWordRuns base := List.mem_of_mem_filter hw
    rcases runsBy_mem isWordChar base w hw' with ⟨hne, hall⟩
    exact ⟨hne, fun c hc => ⟨(hall c hc).1, hbase c (hall c hc).2⟩⟩
  -- characters of the output are normal
  have hchar : ∀ c ∈ normalize_query q, NormChar c := by
    intro c hc
    rw [hout] at hc
    rcases mem_intercalate ' ' cw c hc with h | ⟨w, hw, hcw⟩
    · rw [h]; exact normChar_space
    · exact ((htok w hw).2 c hcw).2
  -- second pass: diacritic removal and lowercasing are the identity
  show List.intercalate [' ']
    ((findWordRuns (pyLower (remove_diacritics (normalize_query q)))).filter _) = _
  rw [show remove_diacritics (normalize_query q) = normalize_query q from
    filterMap_id_of_fix _ _ fun c hc => (hchar c hc).2.1]
  rw [show pyLower (normalize_query q) = normalize_query q from
    map_id_of_fix _ _ fun c hc => (hchar c hc).2.2]
  -- second pass: tokenization recovers the kept tokens
  rw [hout]
  rw [show findWordRuns (List.intercalate [' '] cw) = cw from
    runsBy_intercalate isWordChar ' ' (by decide) cw
      (fun w hw => ⟨(htok w hw).1, fun c hc => ((htok w hw).2 c hc).1⟩)]
  -- second pass: every kept token passes the filter again
  rw [filter_id_of_sat _ cw fun w hw => List.of_mem_filter hw]

/-! ## First-argmax behaviour of `max(d, key=d.get)` (claims C2, C3) -/

/-- The CPython `max` fold keeps the start value when nothing later is
strictly greater, and otherwise lands on the first element that strictly
exceeds the start and is not strictly exceeded later: the leftmost maximum
of the scanned sequence. -/
theorem pyMaxFold_spec :
    ∀ (l : List (PyS × Nat)) (b : PyS × Nat),
      (l.foldl (fun best y => if y.2 > best.2 then y else best) b = b ∧ ∀ y ∈ l, y.2 ≤ b.2) ∨
      (∃ pre y post, l = pre ++ y :: post ∧
        l.foldl (fun best y => if y.2 > best.2 then y else best) b = y ∧
        b.2 < y.2 ∧ (∀ z ∈ pre, z.2 < y.2) ∧ (∀ z ∈ post, z.2 ≤ y.2))
  | [], b => Or.inl ⟨rfl, by simp⟩
  | y :: ys, b => by
    rw [List.foldl_cons]
    by_cases hy : y.2 > b.2
    · rw [if_pos hy]
      rcases pyMaxFold_spec ys y with ⟨heq, hall⟩ | ⟨pre, y', post, hl, heq, hlt, hpre, hpost⟩
      · refine Or.inr ⟨[], y, ys, by simp, heq, hy, by simp, hall⟩
      · refine Or.inr ⟨y :: pre, y', post, by simp [hl], heq, lt_trans hy hlt, ?_, hpost⟩
        intro z hz
        rcases List.mem_cons.mp hz with h | h
        · rw [h]; exact hlt
        · exact hpre z h
    · rw [if_neg hy]
      push_neg at hy
      rcases pyMaxFold_spec ys b with ⟨heq, hall⟩ | ⟨pre, y', post, hl, heq, hlt, hpre, hpost⟩
      · refine Or.inl ⟨heq, fun z hz => ?_⟩
        rcases List.mem_cons.mp hz with h | h
        · rw [h]; exact hy
        · exact hall z h
      · refine Or.inr ⟨y :: pre, y', post, by simp [hl], heq, hlt, ?_, hpost⟩
        intro z hz
        rcases List.mem_cons.mp hz with h | h
        · rw [h]; exact lt_of_le_of_lt hy hlt
        · exact hpre z h

/-- The result of `pyMaxByVal` is an element of the list. -/
theorem pyMaxByVal_mem (l : List (PyS × Nat)) (r : PyS × Nat)
    (h : pyMaxByVal l = some r) : r ∈ l := by
  match l with
  | [] => exact absurd h (by simp [pyMaxByVal])
  | x :: xs =>
    rw [pyMaxByVal, Option.some.injEq] at h
    rcases pyMaxFold_spec xs x with ⟨heq, _⟩ | ⟨pre, y, post, hl, heq, _, _, _⟩
    · rw [heq] at h
      rw [← h]
      simp
    · rw [heq] at h
      rw [← h, hl]
      simp

/-- The result of `pyMaxByVal` is the leftmost maximum: the list splits
around it with strictly smaller values before and no larger value after. -/
theorem pyMaxByVal_first_max (l : List (PyS × Nat)) (r : PyS × Nat)
    (h : pyMaxByVal l = some r) :
    ∃ pre post, l = pre ++ r :: post ∧
      (∀ z ∈ pre, z.2 < r.2) ∧ (∀ z ∈ post, z.2 ≤ r.2) := by
  match l with
  | [] => exact absurd h (by simp [pyMaxByVal])
  | x :: xs =>
    rw [pyMaxByVal, Option.some.injEq] at h
    rcases pyMaxFold_spec xs x with ⟨heq, hall⟩ | ⟨pre, y, post, hl, heq, hlt, hpre, hpost⟩
    · rw [heq] at h
      subst h
      exact ⟨[], xs, by simp, by simp, hall⟩
    · rw [heq] at h
      subst h
      refine ⟨x :: pre, post, by simp [hl], ?_, hpost⟩
      intro z hz
      rcases List.mem_cons.mp hz with hzx | hzp
      · rw [hzx]; exact hlt
      · exact hpre z hzp

/-- Every entry of `simpleIntentScores` has a positive count. -/
theorem simpleIntentScores_pos (q : PyS) :
    ∀ z ∈ simpleIntentScores q, 0 < z.2 := by
  intro z hz
  rcases List.mem_filterMap.mp hz with ⟨ip, _, hip⟩
  by_cases hs : ip.2.countP (fun p => isSub p (normalize_text q)) > 0
  · rw [if_pos hs, Option.some.injEq] at hip
    rw [← hip]
    exact hs
  · rw [if_neg hs] at hip
    exact absurd hip (by simp)

/-- Looking up a key in a table whose values were mapped is the mapped
lookup. -/
theorem lookup_map_value {κ α β : Type} [BEq κ] (g : α → β) :
    ∀ (l : List (κ × α)) (k : κ),
      (l.map (fun p => (p.1, g p.2))).lookup k = (l.lookup k).map g
  | [], _ => rfl
  | (a, b) :: rest, k => by
    rw [List.map_cons, List.lookup, List.lookup]
    cases hk : k == a
    · simp only
      exact lookup_map_value g rest k
    · simp only
      rfl

/-- The lookup of an association-list key present in the key list
succeeds. -/
theorem lookup_isSome_of_mem_keys {κ α : Type} [BEq κ] [LawfulBEq κ] :
    ∀ (l : List (κ × α)) (k : κ), k ∈ l.map Prod.fst → (l.lookup k).isSome = true
  | [], k, h => absurd h (by simp)
  | (a, b) :: rest, k, h => by
    rw [List.lookup]
    have h2 : k = a ∨ k ∈ rest.map Prod.fst := by
      rw [List.map_cons] at h
      exact List.mem_cons.mp h
    cases hk : k == a
    · simp only
      apply lookup_isSome_of_mem_keys rest k
      rcases h2 with h' | h'
      · rw [h', beq_self_eq_true] at hk
        exact absurd hk (by simp)
      · exact h'
    · simp only
      rfl

/-- Scores of `advIntentScores` are the per-intent hit counts, found by
lookup. -/
theorem advIntentScores_lookup (q : PyS) (k : PyS) :
    (advIntentScores q).lookup k =
      (advIntentPatterns.lookup k).map
        (fun ps => ps.countP (fun pat => patMatches q pat)) := by
  unfold advIntentScores
  exact lookup_map_value _ advIntentPatterns _

/-- The second `price_query` regex contains the `$$` alternative (embedded
as the empty literal sequence), so it matches every query: the
`price_query` hit count is always at least 1. -/
theorem advScore_price_pos (q : PyS) :
    0 < advScoreOf q "price_query".toList := by
  unfold advScoreOf
  rw [advIntentScores_lookup]
  rw [show advIntentPatterns.lookup "price_query".toList =
    some [ [lit1 "price", lit1 "cost", lit1 "expensive", lit1 "cheap", lit1 "budget"],
      [lit1 "how much", lit1 "pricing", lit1 "affordable", []],
      [lit1 "preț", lit1 "cost", lit1 "scump", lit1 "ieftin", lit1 "buget"],
      [lit1 "cât costă", lit1 "prețuri", lit1 "accesibil"] ] from by decide]
  simp only [Option.map, Option.getD]
  rw [List.countP_pos_iff]
  refine ⟨[lit1 "how much", lit1 "pricing", lit1 "affordable", []], by simp, ?_⟩
  unfold patMatches
  rw [List.any_eq_true]
  exact ⟨[], by simp, rfl⟩

/-- The start value and every member are bounded by a `foldl Nat.max`. -/
theorem le_foldl_max : ∀ (l : List Nat) (n : Nat),
    n ≤ l.foldl Nat.max n ∧ ∀ a ∈ l, a ≤ l.foldl Nat.max n
  | [], n => ⟨le_refl n, by simp⟩
  | a :: l, n => by
    rw [List.foldl_cons]
    rcases le_foldl_max l (Nat.max n a) with ⟨h1, h2⟩
    refine ⟨le_trans (Nat.le_max_left n a) h1, fun b hb => ?_⟩
    rcases List.mem_cons.mp hb with h | h
    · rw [h]; exact le_trans (Nat.le_max_right n a) h1
    · exact h2 b h

/-- Every score entry of `advIntentScores` carries one of the table's
intents as key. -/
theorem advIntentScores_key (q : PyS) :
    ∀ z ∈ advIntentScores q, (advIntentPatterns.lookup z.1).isSome = true := by
  intro z hz
  unfold advIntentScores at hz
  rcases List.mem_map.mp hz with ⟨ip, hip, hz'⟩
  apply lookup_isSome_of_mem_keys
  rw [← hz']
  exact List.mem_map.mpr ⟨ip, hip, rfl⟩

/-! ## Properties of the merge deduplication (claim C4) -/

/-- The dedup loop yields a subsequence of its input. -/
theorem dedupById_sublist {α : Type} (getId : α → Int) :
    ∀ (l : List (KWResult α)) (seen : List Int),
      (dedupById getId l seen).Sublist l
  | [], _ => List.Sublist.refl []
  | r :: rest, seen => by
    rw [dedupById]
    by_cases h : getId r.item ∈ seen
    · rw [if_pos h]
      exact List.Sublist.cons r (dedupById_sublist getId rest seen)
    · rw [if_neg h]
      exact List.Sublist.cons₂ r (dedupById_sublist getId rest _)

/-- Ids already seen never reappear in the dedup output. -/
theorem dedupById_not_seen {α : Type} (getId : α → Int) :
    ∀ (l : List (KWResult α)) (seen : List Int) (r : KWResult α),
      r ∈ dedupById getId l seen → getId r.item ∉ seen
  | [], _, r, h => absurd h (by simp [dedupById])
  | x :: rest, seen, r, h => by
    rw [dedupById] at h
    by_cases hx : getId x.item ∈ seen
    · rw [if_pos hx] at h
      exact dedupById_not_seen getId rest seen r h
    · rw [if_neg hx] at h
      rcases List.mem_cons.mp h with hr | hr
      · rw [hr]; exact hx
      · intro hcon
        exact dedupById_not_seen getId rest _ r hr (by simp [hcon])

/-- The ids of the dedup output are pairwise distinct. -/
theorem dedupById_nodup {α : Type} (getId : α → Int) :
    ∀ (l : List (KWResult α)) (seen : List Int),
      ((dedupById getId l seen).map (fun r => getId r.item)).Nodup
  | [], _ => by simp [dedupById]
  | x :: rest, seen => by
    rw [dedupById]
    by_cases hx : getId x.item ∈ seen
    · rw [if_pos hx]
      exact dedupById_nodup getId rest seen
    · rw [if_neg hx]
      rw [List.map_cons, List.nodup_cons]
      refine ⟨?_, dedupById_nodup getId rest _⟩
      intro hcon
      rcases List.mem_map.mp hcon with ⟨r, hr, hid⟩
      exact dedupById_not_seen getId rest _ r hr (by simp [hid])

/-- An output entry whose id occurs among the first path's entries comes
from the first path: the dedup loop keeps the first occurrence of each id,
so the semantic entry shadows the keyword entry of the same id. -/
theorem dedupById_first_path {α : Type} (getId : α → Int) (kw : List (KWResult α)) :
    ∀ (sem : List (KWResult α)) (seen : List Int) (r : KWResult α),
      r ∈ dedupById getId (sem ++ kw) seen →
      getId r.item ∈ sem.map (fun x => getId x.item) → r ∈ sem
  | [], _, r, _, hid => absurd hid (by simp)
  | s :: sem', seen, r, h, hid => by
    rw [List.cons_append, dedupById] at h
    have hid' : getId r.item = getId s.item ∨
        getId r.item ∈ sem'.map (fun x => getId x.item) := by
      rw [List.map_cons] at hid
      exact List.mem_cons.mp hid
    by_cases hs : getId s.item ∈ seen
    · rw [if_pos hs] at h
      have hne : getId r.item ≠ getId s.item := by
        intro hcon
        exact dedupById_not_seen getId _ seen r h (by rw [hcon]; exact hs)
      rcases hid' with h' | h'
      · exact absurd h' hne
      · exact List.mem_cons_of_mem s
          (dedupById_first_path getId kw sem' seen r h h')
    · rw [if_neg hs] at h
      rcases List.mem_cons.mp h with hr | hr
      · rw [hr]; simp
      · have hne : getId r.item ≠ getId s.item := by
          intro hcon
          exact dedupById_not_seen getId _ _ r hr (by simp [hcon])
        rcases hid' with h' | h'
        · exact absurd h' hne
        · exact List.mem_cons_of_mem s
            (dedupById_first_path getId kw sem' _ r hr h')

/-! ## History bound of `ConversationMemory.add_message` (claim C5) -/

/-- One `add_message` step preserves the last-`max` suffix invariant. -/
theorem add_message_step {α : Type} (max : Nat) (hmax : 1 ≤ max)
    (L : List α) (m : α) :
    add_message max (L.drop (L.length - max)) m =
      (L ++ [m]).drop ((L ++ [m]).length - max) := by
  unfold add_message
  by_cases hlen : L.length < max
  · have h0 : L.length - max = 0 := by omega
    rw [h0, List.drop_zero]
    rw [if_neg (by simp; omega)]
    rw [List.length_append, List.length_singleton]
    have h1 : L.length + 1 - max = 0 := by omega
    rw [h1, List.drop_zero]
  · push_neg at hlen
    have hdroplen : (L.drop (L.length - max)).length = max := by
      rw [List.length_drop]
      omega
    rw [if_pos (by rw [List.length_append, hdroplen, List.length_singleton]; omega)]
    unfold pySliceLastN
    rw [if_neg (by omega)]
    rw [List.length_append, hdroplen, List.length_singleton]
    rw [show L.drop (L.length - max) ++ [m] = (L ++ [m]).drop (L.length - max) from
      (List.drop_append_of_le_length (by omega)).symm]
    rw [List.drop_drop, List.length_append, List.length_singleton]
    congr 1
    omega

/-- After any sequence of operations, the stored history of a key is the
suffix of the last `max` messages submitted for that key. -/
theorem runAddMessages_spec {α : Type} (max : Nat) (hmax : 1 ≤ max)
    (ops : List (PyS × PyS × α)) (key : PyS) :
    runAddMessages max ops key =
      (submittedFor ops key).drop ((submittedFor ops key).length - max) := by
  induction ops using List.reverseRecOn with
  | nil => simp [runAddMessages, submittedFor]
  | append_singleton ops op ih =>
    unfold runAddMessages at ih ⊢
    rw [List.foldl_append, List.foldl_cons, List.foldl_nil]
    unfold submittedFor
    rw [List.filter_append]
    by_cases hk : memKey op.1 op.2.1 = key
    · rw [if_pos hk, ih]
      rw [List.filter_cons_of_pos (by simp [hk]), List.filter_nil, List.map_append]
      exact add_message_step max hmax _ _
    · rw [if_neg hk, ih]
      rw [List.filter_cons_of_neg (by simp [hk]), List.filter_nil, List.append_nil]
      rfl

/-! ## Membership facts for the sorted keyword results (claim C10) -/

theorem insertDescBy_mem {α : Type} (key : α → ℚ) (x : α) :
    ∀ (l : List α) (y : α), y ∈ insertDescBy key x l → y = x ∨ y ∈ l
  | [], y, h => by
    rw [insertDescBy] at h
    exact Or.inl (by simpa using h)
  | z :: zs, y, h => by
    rw [insertDescBy] at h
    by_cases hz : key x ≥ key z
    · rw [if_pos hz] at h
      rcases List.mem_cons.mp h with h' | h'
      · exact Or.inl h'
      · exact Or.inr h'
    · rw [if_neg hz] at h
      rcases List.mem_cons.mp h with h' | h'
      · exact Or.inr (by simp [h'])
      · rcases insertDescBy_mem key x zs y h' with h'' | h''
        · exact Or.inl h''
        · exact Or.inr (by simp [h''])

theorem pySortDescBy_mem {α : Type} (key : α → ℚ) :
    ∀ (l : List α) (y : α), y ∈ pySortDescBy key l → y ∈ l
  | [], y, h => by
    rw [pySortDescBy] at h
    exact absurd h (by simp)
  | x :: xs, y, h => by
    rw [pySortDescBy] at h
    rcases insertDescBy_mem key x (pySortDescBy key xs) y h with h' | h'
    · simp [h']
    · exact List.mem_cons_of_mem x (pySortDescBy_mem key xs y h')

/-! ## Claim theorems -/

/-- C6 (confirmed): text normalization is idempotent — for every input
string, applying either normalizer (`normalize_text` of the simple backend,
`normalize_query` of the recommender) to its own output returns that output
unchanged. -/
theorem C6_normalization_idempotent :
    (∀ s : PyS, normalize_text (normalize_text s) = normalize_text s) ∧
    (∀ s : PyS, normalize_query (normalize_query s) = normalize_query s) :=
  ⟨normalize_text_idem, normalize_query_idem⟩

/-- C5 (confirmed): for every key and every finite sequence of
`add_message` operations, the stored history (of the joined
`user_id:session_id` key) never exceeds the configured maximum after each
operation — the configured maximum is at least 1, as the default 50 is —
and the retained entries are exactly the most recent submitted messages in
insertion order (a suffix of the submission sequence). -/
theorem C5_history_bound {α : Type} (max_history : Nat) (hmax : 1 ≤ max_history)
    (ops : List (PyS × PyS × α)) (key : PyS) :
    (runAddMessages max_history ops key).length ≤ max_history ∧
    runAddMessages max_history ops key <:+ submittedFor ops key ∧
    runAddMessages max_history ops key =
      (submittedFor ops key).drop
        ((submittedFor ops key).length - max_history) := by
  have h := runAddMessages_spec max_history hmax ops key
  refine ⟨?_, ?_, h⟩
  · rw [h, List.length_drop]
    omega
  · rw [h]
    exact List.drop_suffix _ _

/-- C5 witness: the bound holds concretely at the default maximum 50 for a
three-operation run against one session. -/
theorem C5_history_bound_witness :
    (runAddMessages 50 [("u".toList, "s".toList, 1), ("u".toList, "s".toList, 2),
      ("v".toList, "s".toList, 3)] "u:s".toList).length ≤ 50 ∧
    runAddMessages 50 [("u".toList, "s".toList, 1), ("u".toList, "s".toList, 2),
      ("v".toList, "s".toList, 3)] "u:s".toList <:+
      submittedFor [("u".toList, "s".toList, 1), ("u".toList, "s".toList, 2),
        ("v".toList, "s".toList, 3)] "u:s".toList :=
  ⟨(C5_history_bound 50 (by norm_num) _ _).1, (C5_history_bound 50 (by norm_num) _ _).2.1⟩

/-- C2 counterexample: the query "restaurant concert" scores 1 for both
`restaurant_search` and `event_search` — a tie for the highest count — yet
`classify_intent` returns `restaurant_search`, not the claimed default
`general`. -/
theorem C2_tie_not_general :
    simpleIntentScores "restaurant concert".toList =
      [("restaurant_search".toList, 1), ("event_search".toList, 1)] ∧
    classify_intent "restaurant concert".toList = "restaurant_search".toList ∧
    "restaurant_search".toList ≠ "general".toList :=
  ⟨by decide, by decide, by decide⟩

/-- C2 (corrected): the classifier returns `general` exactly when no intent
scores positively; otherwise it returns the earliest intent (in the fixed
pattern-table order) among those attaining the maximal hit count — ties
resolve to the earliest-listed tied intent, not to `general`. -/
theorem C2_classify_first_max (q : PyS) :
    (simpleIntentScores q = [] → classify_intent q = "general".toList) ∧
    (simpleIntentScores q ≠ [] →
      ∃ pre s post, simpleIntentScores q = pre ++ (classify_intent q, s) :: post ∧
        0 < s ∧ (∀ z ∈ pre, z.2 < s) ∧ (∀ z ∈ post, z.2 ≤ s)) := by
  constructor
  · intro h
    unfold classify_intent
    rw [h]
    rfl
  · intro h
    rcases List.exists_cons_of_ne_nil h with ⟨x, xs, hsc⟩
    have hm : ∃ r, pyMaxByVal (simpleIntentScores q) = some r := by
      rw [hsc]
      exact ⟨_, rfl⟩
    rcases hm with ⟨r, hm⟩
    have hcl : classify_intent q = r.1 := by
      unfold classify_intent
      rw [hm]
    rcases pyMaxByVal_first_max _ r hm with ⟨pre, post, hsplit, hpre, hpost⟩
    refine ⟨pre, r.2, post, ?_, ?_, hpre, hpost⟩
    · rw [hcl]
      rw [hsplit]
    · exact simpleIntentScores_pos q r (pyMaxByVal_mem _ r hm)

/-- C2 witness: the corrected rule evaluated concretely — zero scores give
`general` for "xyzzy", and for "salut" the classifier's result is the
single positively-scored intent. -/
theorem C2_classify_first_max_witness :
    classify_intent "xyzzy".toList = "general".toList ∧
    ∃ pre s post, simpleIntentScores "salut".toList =
      pre ++ (classify_intent "salut".toList, s) :: post ∧
      0 < s ∧ (∀ z ∈ pre, z.2 < s) ∧ (∀ z ∈ post, z.2 ≤ s) :=
  ⟨(C2_classify_first_max _).1 (by decide), (C2_classify_first_max _).2 (by decide)⟩

/-- A fixed restaurant record used by the concrete search examples. -/
def sampleRestaurant (n : Int) (name : String) : Restaurant :=
  ⟨n, name.toList, [], [], [], 5, [], [], [], 0, 0, 0⟩

/-- C4 counterexample: merging a semantic entry and a keyword entry for the
same item id keeps the semantic entry's score 2/5 even though the keyword
score 9/10 is higher — the kept score is not the maximum of the two paths —
and merging entries for distinct ids concatenates the two paths without
re-sorting, so the merged list is not in descending score order. -/
theorem C4_merge_keeps_first_not_max :
    merge_results Restaurant.id
      [⟨sampleRestaurant 1 "a", (2 : ℚ)/5⟩] [⟨sampleRestaurant 1 "a", (9 : ℚ)/10⟩] 10 =
      [⟨sampleRestaurant 1 "a", (2 : ℚ)/5⟩] ∧
    (2 : ℚ)/5 ≠ max ((2 : ℚ)/5) ((9 : ℚ)/10) ∧
    merge_results Restaurant.id
      [⟨sampleRestaurant 1 "a", (2 : ℚ)/5⟩] [⟨sampleRestaurant 2 "b", (9 : ℚ)/10⟩] 10 =
      [⟨sampleRestaurant 1 "a", (2 : ℚ)/5⟩, ⟨sampleRestaurant 2 "b", (9 : ℚ)/10⟩] ∧
    (2 : ℚ)/5 < (9 : ℚ)/10 := by
  refine ⟨rfl, ?_, rfl, by norm_num⟩
  rw [max_eq_right (by norm_num : (2 : ℚ)/5 ≤ (9 : ℚ)/10)]
  norm_num

/-- C4 (corrected): the merged list never holds two entries for one item id
and is an order-preserving subsequence of the concatenation
semantic-then-keyword (no re-sorting); the entry kept for an id present in
both paths is the semantic path's entry — the first occurrence — regardless
of which score is higher. -/
theorem C4_merge_dedup {α : Type} (getId : α → Int)
    (semantic keyword : List (KWResult α)) (maxResults : Nat) :
    ((merge_results getId semantic keyword maxResults).map
      (fun r => getId r.item)).Nodup ∧
    (merge_results getId semantic keyword maxResults).Sublist (semantic ++ keyword) ∧
    ∀ r ∈ merge_results getId semantic keyword maxResults,
      getId r.item ∈ semantic.map (fun x => getId x.item) → r ∈ semantic := by
  refine ⟨?_, ?_, ?_⟩
  · have h := dedupById_nodup getId (semantic ++ keyword) []
    unfold merge_results
    exact List.Nodup.sublist (List.Sublist.map _ (List.take_sublist _ _)) h
  · exact List.Sublist.trans (List.take_sublist _ _)
      (dedupById_sublist getId (semantic ++ keyword) [])
  · intro r hr hid
    exact dedupById_first_path getId keyword semantic [] r
      (List.mem_of_mem_take hr) hid

/-- C4 witness: the dedup properties applied to the concrete two-path
example — the kept entry for id 1 comes from the semantic path. -/
theorem C4_merge_dedup_witness :
    ⟨sampleRestaurant 1 "a", (2 : ℚ)/5⟩ ∈
      ([⟨sampleRestaurant 1 "a", (2 : ℚ)/5⟩] : List (KWResult Restaurant)) :=
  (C4_merge_dedup Restaurant.id [⟨sampleRestaurant 1 "a", (2 : ℚ)/5⟩]
    [⟨sampleRestaurant 1 "a", (9 : ℚ)/10⟩] 10).2.2
    ⟨sampleRestaurant 1 "a", (2 : ℚ)/5⟩ (by rw [show merge_results Restaurant.id
      [⟨sampleRestaurant 1 "a", (2 : ℚ)/5⟩] [⟨sampleRestaurant 1 "a", (9 : ℚ)/10⟩] 10 =
      [⟨sampleRestaurant 1 "a", (2 : ℚ)/5⟩] from rfl]; simp)
    (by simp)

/-- C10 (confirmed): keyword search is total at its interface — a query
whose normalized token set is empty yields the empty result list, and the
overlap-ratio division is only ever evaluated against a positive token
count: whenever a result is returned, the query token set is nonempty, so
`len(matching_words) / len(query_words)` never divides by zero. -/
theorem C10_keyword_search_total :
    (∀ (q : PyS) (items : List Restaurant) (limit : Nat),
      queryWords q = [] → keyword_search_restaurants q items limit = []) ∧
    (∀ (q : PyS) (items : List Restaurant) (limit : Nat)
      (r : KWResult Restaurant),
      r ∈ keyword_search_restaurants q items limit →
        0 < (queryWords q).length ∧
        ∃ item ∈ items, r = ⟨item,
          ((tokenInter (queryWords q)
            ((pySplitWs (normalize_text (restaurantSearchText item))).dedup)).length : ℚ) /
          ((queryWords q).length : ℚ)⟩) := by
  constructor
  · intro q items limit h
    simp only [keyword_search_restaurants, keyword_search_core, h]
    rw [List.filterMap_eq_nil_iff.mpr ?_]
    · rw [show pySortDescBy (fun r : KWResult Restaurant => r.score) [] = [] from rfl,
        List.take_nil]
    · intro item _
      rw [if_neg (by simp [tokenInter])]
  · intro q items limit r hr
    have hr' := hr
    simp only [keyword_search_restaurants, keyword_search_core] at hr'
    have hr1 := List.take_subset _ _ hr'
    have hr2 := pySortDescBy_mem _ _ r hr1
    rcases List.mem_filterMap.mp hr2 with ⟨item, hitem, hsome⟩
    by_cases hm : tokenInter (queryWords q)
        ((pySplitWs (normalize_text (restaurantSearchText item))).dedup) ≠ []
    · rw [if_pos hm, Option.some.injEq] at hsome
      constructor
      · rcases List.exists_cons_of_ne_nil hm with ⟨w, ws, hw⟩
        have : w ∈ queryWords q := by
          have hwm : w ∈ tokenInter (queryWords q)
              ((pySplitWs (normalize_text (restaurantSearchText item))).dedup) := by
            rw [hw]
            simp
          exact List.mem_of_mem_filter hwm
        rcases List.exists_cons_of_ne_nil (List.ne_nil_of_mem this) with ⟨_, _, hq⟩
        rw [hq]
        simp
      · exact ⟨item, hitem, hsome.symm⟩
    · rw [if_neg hm] at hsome
      exact absurd hsome (by simp)

/-- C10 witness: the empty query returns no results, and a matching query
is scored against its positive token count. -/
theorem C10_keyword_search_total_witness :
    keyword_search_restaurants "".toList [sampleRestaurant 1 "pizza"] 5 = [] ∧
    0 < (queryWords "pizza".toList).length :=
  ⟨C10_keyword_search_total.1 "".toList _ 5 (by decide),
   (C10_keyword_search_total.2 "pizza".toList [sampleRestaurant 1 "pizza"] 5
      ⟨sampleRestaurant 1 "pizza",
        ((tokenInter (queryWords "pizza".toList)
          ((pySplitWs (normalize_text (restaurantSearchText (sampleRestaurant 1 "pizza")))).dedup)).length : ℚ) /
        ((queryWords "pizza".toList).length : ℚ)⟩
      (by rw [show keyword_search_restaurants "pizza".toList [sampleRestaurant 1 "pizza"] 5 =
        [⟨sampleRestaurant 1 "pizza",
          ((tokenInter (queryWords "pizza".toList)
            ((pySplitWs (normalize_text (restaurantSearchText (sampleRestaurant 1 "pizza")))).dedup)).length : ℚ) /
          ((queryWords "pizza".toList).length : ℚ)⟩] from rfl]; simp)).1⟩

/-- C8 (confirmed): an absent cache backend yields a miss on every read and
a no-op on every write; a raising backend read is folded into a miss; and
on any cache miss the recommendation pipeline performs the fresh
computation — its result equals the result of the cache-less pipeline, and
is returned normally. -/
theorem C8_cache_degrades (Rec : Type) :
    (∀ key : PyS, get_from_cache (none : Option (RedisClient (List Rec))) key = none) ∧
    (∀ (client : RedisClient (List Rec)) (key e : PyS), client.get key = .error e →
      get_from_cache (some client) key = none) ∧
    (∀ (key : PyS) (ttl : Nat) (data : List Rec),
      save_to_cache (none : Option (RedisClient (List Rec))) key ttl data = false) ∧
    (∀ (client : Option (RedisClient (List Rec))) (cacheKey intent : PyS)
      (restaurantFetch eventFetch : Except PyS (List Rec)),
      get_from_cache client cacheKey = none →
      get_recommendations client cacheKey intent restaurantFetch eventFetch =
        get_recommendations none cacheKey intent restaurantFetch eventFetch) := by
  refine ⟨fun _ => rfl, ?_, fun _ _ _ => rfl, ?_⟩
  · intro client key e he
    simp only [get_from_cache]
    rw [he]
  · intro client cacheKey intent rf ef hmiss
    unfold get_recommendations
    rw [hmiss]
    rfl

/-- C8 witness: a backend whose reads always raise degrades to recomputing:
the pipeline result equals the cache-less result. -/
theorem C8_cache_degrades_witness :
    get_from_cache (some ⟨fun _ => .error "boom".toList,
        fun _ _ _ => .ok ()⟩ : Option (RedisClient (List Nat))) "k".toList = none ∧
    get_recommendations (some ⟨fun _ => .error "boom".toList, fun _ _ _ => .ok ()⟩)
        "k".toList "search_restaurant".toList (.ok [7]) (.ok []) =
      get_recommendations (none : Option (RedisClient (List Nat)))
        "k".toList "search_restaurant".toList (.ok [7]) (.ok []) := by
  refine ⟨(C8_cache_degrades Nat).2.1 _ "k".toList "boom".toList rfl, ?_⟩
  exact (C8_cache_degrades Nat).2.2.2 _ "k".toList "search_restaurant".toList
    (.ok [7]) (.ok []) ((C8_cache_degrades Nat).2.1 _ "k".toList "boom".toList rfl)

/-- C9 (confirmed): the query "Salut!" against a fresh context resolves to
intent `greeting` with confidence 0.9 ≥ 0.5, and — whatever the catalog
holds — the search dispatch leaves both recommendation lists empty, because
`greeting` is in neither search-triggering intent set. -/
theorem C9_salut_greeting :
    analyze_intent_and_context "Salut!".toList = ("greeting".toList, (9 : ℚ)/10) ∧
    (1 : ℚ)/2 ≤ (9 : ℚ)/10 ∧
    ∀ (restaurants : List SBRestaurant) (events : List SBEvent),
      sb_search_results "Salut!".toList
        (analyze_intent_and_context "Salut!".toList).1 restaurants events = ([], []) := by
  have h : analyze_intent_and_context "Salut!".toList = ("greeting".toList, (9 : ℚ)/10) := rfl
  refine ⟨h, by norm_num, ?_⟩
  intro rs es
  have h1 : (analyze_intent_and_context "Salut!".toList).1 = "greeting".toList := by
    rw [h]
  unfold sb_search_results
  rw [h1]
  simp only [if_neg (show ¬("greeting".toList = "restaurant_search".toList ∨
      "greeting".toList = "general".toList) from by decide),
    if_neg (show ¬("greeting".toList = "event_search".toList ∨
      "greeting".toList = "general".toList) from by decide)]

/-- A successful association-list lookup returns a member. -/
theorem mem_of_lookup {κ α : Type} [BEq κ] [LawfulBEq κ] :
    ∀ (l : List (κ × α)) (k : κ) (v : α), l.lookup k = some v → (k, v) ∈ l
  | [], _, _, h => absurd h (by simp)
  | (a, b) :: rest, k, v, h => by
    rw [List.lookup] at h
    cases hk : k == a
    · rw [hk] at h
      exact List.mem_cons_of_mem _ (mem_of_lookup rest k v h)
    · rw [hk] at h
      have hka : k = a := by simpa using hk
      have hvb : v = b := by simpa using h.symm
      rw [hka, hvb]
      simp

/-- Every intent of the pattern table has at least one rule. -/
theorem advPatCount_pos (k : PyS) (h : (advIntentPatterns.lookup k).isSome = true) :
    0 < advPatCount k := by
  rcases Option.isSome_iff_exists.mp h with ⟨ps, hps⟩
  have hmem : (k, ps) ∈ advIntentPatterns := mem_of_lookup _ k ps hps
  have hall : advIntentPatterns.all (fun ip => decide (0 < ip.2.length)) = true := by decide
  have := List.all_eq_true.mp hall _ hmem
  unfold advPatCount
  rw [hps]
  simpa using this

/-- The hit count of a table intent never exceeds its rule count. -/
theorem advScore_le_patCount (q k : PyS)
    (h : (advIntentPatterns.lookup k).isSome = true) :
    advScoreOf q k ≤ advPatCount k := by
  rcases Option.isSome_iff_exists.mp h with ⟨ps, hps⟩
  unfold advScoreOf advPatCount
  rw [advIntentScores_lookup, hps]
  simpa using List.countP_le_length _

/-- The `price_query` rule list, as found in the table (used to exhibit a
positive score on every query). -/
def advPricePatterns : List (List (List PyS)) :=
  [ [lit1 "price", lit1 "cost", lit1 "expensive", lit1 "cheap", lit1 "budget"],
    [lit1 "how much", lit1 "pricing", lit1 "affordable", []],
    [lit1 "preț", lit1 "cost", lit1 "scump", lit1 "ieftin", lit1 "buget"],
    [lit1 "cât costă", lit1 "prețuri", lit1 "accesibil"] ]

/-- The pre-override primary intent is always a key of the pattern table:
because the `$$` alternative gives `price_query` a positive score on every
query, the all-zero default branch is unreachable and the argmax is taken
over the table's own intents. -/
theorem advPrimaryIntent₀_valid (q : PyS) :
    (advIntentPatterns.lookup (advPrimaryIntent₀ q)).isSome = true := by
  have hps : advIntentPatterns.lookup "price_query".toList = some advPricePatterns := by
    decide
  have hmem : ("price_query".toList, advPricePatterns) ∈ advIntentPatterns := by decide
  have hentry : ("price_query".toList, advScoreOf q "price_query".toList) ∈
      advIntentScores q := by
    have hsc : advScoreOf q "price_query".toList =
        advPricePatterns.countP (fun pat => patMatches q pat) := by
      unfold advScoreOf
      rw [advIntentScores_lookup, hps]
      rfl
    unfold advIntentScores
    apply List.mem_map.mpr
    refine ⟨("price_query".toList, advPricePatterns), hmem, ?_⟩
    simp only
    rw [hsc]
  have hgt : ((advIntentScores q).map Prod.snd).foldl Nat.max 0 > 0 := by
    have hle := (le_foldl_max ((advIntentScores q).map Prod.snd) 0).2
      (advScoreOf q "price_query".toList)
      (List.mem_map.mpr ⟨_, hentry, rfl⟩)
    have hpos := advScore_price_pos q
    omega
  unfold advPrimaryIntent₀
  rw [if_pos hgt]
  cases hm : pyMaxByVal (advIntentScores q) with
  | none =>
    exfalso
    have hne : advIntentScores q ≠ [] := by
      intro hcon
      rw [hcon] at hentry
      exact absurd hentry (by simp)
    rcases List.exists_cons_of_ne_nil hne with ⟨x, xs, hsc⟩
    rw [hsc] at hm
    exact absurd hm (by simp [pyMaxByVal])
  | some r =>
    exact advIntentScores_key q r (pyMaxByVal_mem _ r hm)

/-- C3 counterexample: a context whose stored current intent is the string
"zz" — not one of the classifier's intent labels — combined with a query
containing that string makes the confidence expression subscript
`intent_patterns["zz"]`, raising `KeyError`: the analysis does not return,
contradicting the claim's "for every query and context, returns without
raising". -/
theorem C3_analysis_raises :
    analyze_query "zz".toList ⟨some "zz".toList, []⟩ = .error "zz".toList :=
  analyze_query_eval_err _ _ "zz".toList (by decide) (by decide)

/-- C3 (corrected): for contexts whose stored intent is absent or one of
the classifier's own intent labels (the only ones the engine itself ever
stores), the analysis returns without raising, with confidence equal to the
returned intent's hit count divided by that intent's rule count, a value in
[0,1]; moreover no query has all-zero hit counts — the `$$` alternative in
the second `price_query` rule matches every string — so the `general`
default (which would raise `KeyError`) is unreachable from scoring, and
the claimed zero-confidence `general` case never occurs. -/
theorem C3_confidence_amended (q : PyS) (ctx : ConvContext)
    (hctx : ctx.current_intent = none ∨ ∃ i, ctx.current_intent = some i ∧
      (advIntentPatterns.lookup i).isSome = true) :
    (∃ a, analyze_query q ctx = .ok a ∧
      a.confidence = (advScoreOf q a.intent : ℚ) / (advPatCount a.intent : ℚ) ∧
      0 ≤ a.confidence ∧ a.confidence ≤ 1) ∧
    0 < advScoreOf q "price_query".toList := by
  refine ⟨?_, advScore_price_pos q⟩
  have hvalid : (advIntentPatterns.lookup (advPrimaryIntent q ctx)).isSome = true := by
    unfold advPrimaryIntent
    rcases hctx with h | ⟨i, hi, hvi⟩
    · rw [h]
      exact advPrimaryIntent₀_valid q
    · rw [hi]
      show (advIntentPatterns.lookup
        (if i ≠ [] ∧ isSub i (pyLower q) then i else advPrimaryIntent₀ q)).isSome = true
      by_cases hcond : i ≠ [] ∧ isSub i (pyLower q)
      · rw [if_pos hcond]
        exact hvi
      · rw [if_neg hcond]
        exact advPrimaryIntent₀_valid q
  have heval := analyze_query_eval_ok q ctx (advPrimaryIntent q ctx) rfl hvalid
  have hpc : 0 < advPatCount (advPrimaryIntent q ctx) :=
    advPatCount_pos _ hvalid
  have hmaxeq : max 1 (advPatCount (advPrimaryIntent q ctx)) =
      advPatCount (advPrimaryIntent q ctx) := by omega
  have hle : advScoreOf q (advPrimaryIntent q ctx) ≤
      advPatCount (advPrimaryIntent q ctx) := advScore_le_patCount q _ hvalid
  refine ⟨_, heval, ?_, ?_, ?_⟩
  · simp only [hmaxeq]
  · simp only
    apply div_nonneg
    · exact Nat.cast_nonneg _
    · exact Nat.cast_nonneg _
  · simp only [hmaxeq]
    rw [div_le_one (by exact_mod_cast hpc)]
    exact_mod_cast hle

/-- C3 witness: the corrected statement applied to the query "unde" in a
fresh context. -/
theorem C3_confidence_amended_witness :
    (∃ a, analyze_query "unde".toList freshContext = .ok a ∧
      a.confidence = (advScoreOf "unde".toList a.intent : ℚ) /
        (advPatCount a.intent : ℚ) ∧
      0 ≤ a.confidence ∧ a.confidence ≤ 1) ∧
    0 < advScoreOf "unde".toList "price_query".toList :=
  C3_confidence_amended "unde".toList freshContext (Or.inl rfl)

/-- C7 counterexample: the claim's own scenario fails on the code — the
query "restaurant italian" resolves to `search_restaurant`, but the
follow-up "mai arată-mi" in the resulting context resolves to
`price_query` (via the always-matching `$$` alternative), not to the
previous intent: the override fires only when the intent's identifier
string itself occurs in the new query, and `search_restaurant` does not
occur in "mai arată-mi". -/
theorem C7_scenario_fails :
    analyze_query "restaurant italian".toList freshContext =
      .ok ⟨"search_restaurant".toList, (3 : ℚ)/8⟩ ∧
    analyze_query "mai arată-mi".toList
      ⟨some "search_restaurant".toList, ["restaurant italian".toList]⟩ =
      .ok ⟨"price_query".toList, (1 : ℚ)/4⟩ ∧
    "price_query".toList ≠ "search_restaurant".toList := by
  refine ⟨?_, ?_, by decide⟩
  · rw [analyze_query_eval_ok _ _ "search_restaurant".toList (by decide) (by decide)]
    rw [show advScoreOf "restaurant italian".toList "search_restaurant".toList = 3 from
      by decide]
    rw [show advPatCount "search_restaurant".toList = 8 from by decide]
    norm_num
  · rw [analyze_query_eval_ok _ _ "price_query".toList (by decide) (by decide)]
    rw [show advScoreOf "mai arată-mi".toList "price_query".toList = 1 from by decide]
    rw [show advPatCount "price_query".toList = 4 from by decide]
    norm_num

/-- C7 (corrected): the sticky-intent override keys on the literal intent
identifier, not on topic keywords — whenever the context's stored intent is
a nonempty table intent whose identifier string occurs as a substring of
the lowercased new query, the analysis returns that prior intent
unchanged.  The claim's two-query scenario does not satisfy this trigger
and instead resolves to `price_query` (see the counterexample). -/
theorem C7_sticky_override (q : PyS) (ctx : ConvContext) (i : PyS)
    (h1 : ctx.current_intent = some i) (h2 : i ≠ [])
    (h3 : isSub i (pyLower q) = true)
    (h4 : (advIntentPatterns.lookup i).isSome = true) :
    ∃ a, analyze_query q ctx = .ok a ∧ a.intent = i := by
  have hp : advPrimaryIntent q ctx = i := by
    unfold advPrimaryIntent
    rw [h1]
    show (if i ≠ [] ∧ isSub i (pyLower q) then i else advPrimaryIntent₀ q) = i
    rw [if_pos ⟨h2, h3⟩]
  exact ⟨_, analyze_query_eval_ok q ctx i hp h4, rfl⟩

/-- C7 witness: a query that literally contains the stored intent
identifier `search_event` keeps that intent. -/
theorem C7_sticky_override_witness :
    ∃ a, analyze_query "mai multe search_event".toList
      ⟨some "search_event".toList, []⟩ = .ok a ∧
      a.intent = "search_event".toList :=
  C7_sticky_override _ _ "search_event".toList rfl (by decide) (by decide) (by decide)

/-- C1 counterexample: when retrieval raises (both fetches fail) but
classification succeeds, `process_query` does not return the degraded
`error` response claimed: the delivered response carries the classified
intent `search_restaurant`, its classifier confidence 3/8 ≠ 0 and an empty
recommendation list — the retrieval exception is caught inside
`_get_recommendations`, below the orchestrator boundary. -/
theorem C1_retrieval_failure_not_error :
    process_query "restaurant italian".toList freshContext
      (none : Option (RedisClient (List Nat))) [] (.error "boom".toList)
      (.error "boom".toList) =
      ⟨[], (3 : ℚ)/8, "search_restaurant".toList, []⟩ ∧
    "search_restaurant".toList ≠ "error".toList ∧
    ((3 : ℚ)/8 : ℚ) ≠ 0 := by
  refine ⟨?_, by decide, by norm_num⟩
  have ha : analyze_query "restaurant italian".toList freshContext =
      .ok ⟨"search_restaurant".toList, (3 : ℚ)/8⟩ := by
    rw [analyze_query_eval_ok _ _ "search_restaurant".toList (by decide) (by decide)]
    rw [show advScoreOf "restaurant italian".toList "search_restaurant".toList = 3 from
      by decide]
    rw [show advPatCount "search_restaurant".toList = 8 from by decide]
    norm_num
  simp only [process_query, ha]
  rfl

/-- C1 (corrected): no exception crosses the orchestrator boundary —
`process_query` always delivers a response — and a failure in
classification/extraction (`analyze_query` raising) is converted into the
static degraded response (intent `error`, empty recommendations, the
apology text, confidence 0); but a retrieval failure alone is caught one
level deeper and yields a normally-delivered response carrying the
classified intent and an empty recommendation list, not the `error`
response. -/
theorem C1_error_boundary {Rec : Type} (q : PyS) (ctx : ConvContext)
    (client : Option (RedisClient (List Rec))) (cacheKey : PyS)
    (restaurantFetch eventFetch : Except PyS (List Rec)) :
    (∀ e, analyze_query q ctx = .error e →
      process_query q ctx client cacheKey restaurantFetch eventFetch =
        ⟨("I apologize, but I encountered an error processing your request. " ++
          "Please try again.").toList, 0, "error".toList, []⟩) ∧
    (∀ a e, analyze_query q ctx = .ok a → get_from_cache client cacheKey = none →
      a.intent = "search_restaurant".toList → restaurantFetch = .error e →
      process_query q ctx client cacheKey restaurantFetch eventFetch =
        ⟨[], a.confidence, a.intent, []⟩) := by
  constructor
  · intro e he
    simp only [process_query, he]
    rfl
  · intro a e ha hmiss hint hre
    simp only [process_query, ha, get_recommendations, hmiss, hint, hre,
      generate_response, if_true, ite_true]

/-- C1 witness: a run whose classification raises (the `KeyError` context)
returns exactly the degraded apology response. -/
theorem C1_error_boundary_witness :
    process_query "zz".toList ⟨some "zz".toList, []⟩
      (none : Option (RedisClient (List Nat))) [] (.ok []) (.ok []) =
      ⟨("I apologize, but I encountered an error processing your request. " ++
        "Please try again.").toList, 0, "error".toList, []⟩ :=
  (C1_error_boundary "zz".toList ⟨some "zz".toList, []⟩ none [] (.ok []) (.ok [])).1
    "zz".toList (analyze_query_eval_err _ _ "zz".toList (by decide) (by decide))
